import Mathlib

set_option autoImplicit false

/-!
Verification development for the scheduling and persistence-coordination
subsystem of the open_crypto / ParallelResponses repository.

The relational store handled by DatabaseHandler (db_handler.py) is embedded as
a value of type DB: lists of rows for the Exchange, Currency,
ExchangeCurrencyPair, Ticker and HistoricRate tables together with the
auto-increment counters of the surrogate-id columns.  SQLAlchemy queries with
first() become List.find?, queries with all() become List.filter, and the
session/transaction machinery becomes explicit state passing: a committed DB
in, a committed DB out, with rollback returning the DB unchanged.  Python
str.upper() is embedded as pyUpper, a character-wise upper-casing (the names
handled by the program are plain ASCII).
-/

namespace OpenCrypto

/-- Python str.upper() on the ASCII names the program handles: upper-case the
characters of the string one by one. -/
def pyUpper (s : String) : String :=
  ⟨s.data.map Char.toUpper⟩

/-- Row of the Exchange table: surrogate id and name. -/
structure ExchangeRow where
  id : Nat
  name : String
deriving DecidableEq

/-- Row of the Currency table: surrogate id and name. -/
structure CurrencyRow where
  id : Nat
  name : String
deriving DecidableEq

/-- Row of the ExchangeCurrencyPair table: surrogate id and the
(exchange_id, first_id, second_id) triple. -/
structure PairRow where
  id : Nat
  exchange_id : Nat
  first_id : Nat
  second_id : Nat
deriving DecidableEq

/-- Row of the Ticker fact table (db_handler.py persist_tickers). -/
structure TickerRow where
  exchange_pair_id : Nat
  start_time : Int
  response_time : Int
  last_price : Rat
  last_trade : Rat
  best_ask : Rat
  best_bid : Rat
  daily_volume : Rat
deriving DecidableEq

/-- Row of the HistoricRate fact table (db_handler.py persist_historic_rates). -/
structure HistoricRateRow where
  exchange_pair_id : Nat
  timestamp : Int
  open_ : Rat
  high : Rat
  low : Rat
  close : Rat
  volume : Rat
deriving DecidableEq

/-- The committed relational store, with the auto-increment counters of the
three surrogate-id columns. -/
structure DB where
  exchanges : List ExchangeRow
  currencies : List CurrencyRow
  pairs : List PairRow
  tickers : List TickerRow
  historic_rates : List HistoricRateRow
  nextExchangeId : Nat
  nextCurrencyId : Nat
  nextPairId : Nat
deriving DecidableEq

/-- The filter of the Exchange lookups: name equal to the upper-cased input. -/
def findExchangeRow (l : List ExchangeRow) (name : String) : Option ExchangeRow :=
  l.find? (fun e => e.name == pyUpper name)

/-- The filter of the Currency lookups: name equal to the upper-cased input. -/
def findCurrencyRow (l : List CurrencyRow) (name : String) : Option CurrencyRow :=
  l.find? (fun c => c.name == pyUpper name)

/-- The filter of the pair lookups: the (exchange_id, first_id, second_id)
triple. -/
def findPairRow (l : List PairRow) (eid fid sid : Nat) : Option PairRow :=
  l.find? (fun p => p.exchange_id == eid && p.first_id == fid && p.second_id == sid)

/-- session.query(Exchange).filter(Exchange.name == name.upper()).first() -/
def queryExchange (db : DB) (name : String) : Option ExchangeRow :=
  findExchangeRow db.exchanges name

/-- session.query(Currency).filter(Currency.name == name.upper()).first() -/
def queryCurrency (db : DB) (name : String) : Option CurrencyRow :=
  findCurrencyRow db.currencies name

/-- session.query(ExchangeCurrencyPair).filter on the id triple, .first() -/
def queryPair (db : DB) (eid fid sid : Nat) : Option PairRow :=
  findPairRow db.pairs eid fid sid

/-- Modelled from the spec: the ORM table classes (model/database/tables.py)
are not under src.  Per spec section 3, Exchange.name is stored uppercase, so
constructing an Exchange row upper-cases the name it is given. -/
def ExchangeRow.new (id : Nat) (name : String) : ExchangeRow :=
  { id := id, name := pyUpper name }

/-- Modelled from the spec: the ORM table classes (model/database/tables.py)
are not under src.  Per spec section 3, Currency.name is stored uppercase, so
constructing a Currency row upper-cases the name it is given. -/
def CurrencyRow.new (id : Nat) (name : String) : CurrencyRow :=
  { id := id, name := pyUpper name }

namespace DbHandler

/-- DatabaseHandler.persist_exchange: look the name up (upper-cased) and add a
new Exchange row only when the lookup misses; commit. -/
def persist_exchange (db : DB) (exchange_name : String) : DB :=
  match queryExchange db exchange_name with
  | some _ => db
  | none =>
      { db with
        exchanges := db.exchanges ++ [ExchangeRow.new db.nextExchangeId exchange_name],
        nextExchangeId := db.nextExchangeId + 1 }

/-- Input tuple of persist_exchange_currency_pairs:
(exchange-name, first currency-name, second currency-name); a component may be
Python None, in which case the tuple is skipped. -/
structure CPTuple where
  exchange_name : Option String
  first_currency_name : Option String
  second_currency_name : Option String
deriving DecidableEq

/-- The three first()-lookups of persist_exchange_currency_pairs followed by
the pair query keyed on the three objects.  When one of the objects is absent
the pair query compares a column against NULL and finds nothing.  The same
query sequence closes get_exchange_currency_pair. -/
def tripleResolved (db : DB) (en fn sn : String) : Option PairRow :=
  match queryExchange db en, queryCurrency db fn, queryCurrency db sn with
  | some e, some f, some s => queryPair db e.id f.id s.id
  | _, _, _ => none

/-- Loop body of DatabaseHandler.persist_exchange_currency_pairs for one input
tuple, acting on the session state (pending rows are visible to the queries of
later tuples through autoflush, so the session state is threaded as a DB
value).  A tuple with a missing component is skipped.  When all three
referenced objects exist the pair query runs on their ids; otherwise a new
object has no id yet and the pair query finds nothing, so a pair row is
created together with the missing objects.  The error case is the modelled
uniqueness constraint of the Currency table (spec sections 3 and 4.1; the ORM
table classes are not under src): the only insert that can violate it here is
a tuple whose two currency names are new and upper-case to the same string,
which makes the flush raise and the whole batch roll back.

The insert branch below is the case in which at least one referenced object is
missing: the new objects get the next free ids, the pair row is created, and
the missing objects are inserted with it.  Id the exchange object contributes
to the new pair row: the id of the found row, or the next free exchange id. -/
def newExchangeId (db : DB) (exFound : Option ExchangeRow) : Nat :=
  match exFound with
  | some e => e.id
  | none => db.nextExchangeId

/-- Id the first-currency object contributes to the new pair row: the id of
the found row, or the next free currency id. -/
def newFirstId (db : DB) (fFound : Option CurrencyRow) : Nat :=
  match fFound with
  | some c => c.id
  | none => db.nextCurrencyId

/-- Id the second-currency object contributes to the new pair row: the id of
the found row, or the currency id after the one a new first currency takes. -/
def newSecondId (db : DB) (fFound sFound : Option CurrencyRow) : Nat :=
  match sFound with
  | some c => c.id
  | none => if fFound.isNone then db.nextCurrencyId + 1 else db.nextCurrencyId

/-- The insert branch of the loop body of persist_exchange_currency_pairs. -/
def persist_pair_step_insert (db : DB) (en fn sn : String)
    (exFound : Option ExchangeRow) (fFound sFound : Option CurrencyRow) : Except Unit DB :=
  if fFound.isNone && sFound.isNone && (pyUpper fn == pyUpper sn) then
    .error ()
  else
    .ok { db with
          exchanges := db.exchanges ++
            (if exFound.isNone then [ExchangeRow.new db.nextExchangeId en] else []),
          currencies := db.currencies ++
            (if fFound.isNone then [CurrencyRow.new (newFirstId db fFound) fn] else []) ++
            (if sFound.isNone then [CurrencyRow.new (newSecondId db fFound sFound) sn] else []),
          pairs := db.pairs ++
            [⟨db.nextPairId, newExchangeId db exFound, newFirstId db fFound,
              newSecondId db fFound sFound⟩],
          nextExchangeId := db.nextExchangeId + (if exFound.isNone then 1 else 0),
          nextCurrencyId := db.nextCurrencyId +
            (if fFound.isNone then 1 else 0) + (if sFound.isNone then 1 else 0),
          nextPairId := db.nextPairId + 1 }

/-- One iteration of the loop of persist_exchange_currency_pairs: skip a tuple
with a missing component; when all three referenced objects exist, run the
pair-existence query on their ids and add a pair row only on a miss; when a
referenced object is missing, fall through to the insert branch above. -/
def persist_pair_step (db : DB) (cp : CPTuple) : Except Unit DB :=
  match cp.exchange_name, cp.first_currency_name, cp.second_currency_name with
  | some en, some fn, some sn =>
    match queryExchange db en, queryCurrency db fn, queryCurrency db sn with
    | some e, some f, some s =>
        match queryPair db e.id f.id s.id with
        | some _ => .ok db
        | none =>
            .ok { db with
                  pairs := db.pairs ++ [⟨db.nextPairId, e.id, f.id, s.id⟩],
                  nextPairId := db.nextPairId + 1 }
    | exFound, fFound, sFound => persist_pair_step_insert db en fn sn exFound fFound sFound
  | _, _, _ => .ok db

/-- The try-block of persist_exchange_currency_pairs: process the tuples in
order against the session state.  The fault argument injects an arbitrary
exception while the tuple at that position is processed, modelling any
mid-batch failure; a uniqueness violation raises organically. -/
def persistPairsTry (fault : Option Nat) (db : DB) : List CPTuple → Except Unit DB
  | [] => .ok db
  | cp :: rest =>
    if fault = some 0 then .error ()
    else
      match persist_pair_step db cp with
      | .error _ => .error ()
      | .ok db1 => persistPairsTry (fault.map (fun k => k - 1)) db1 rest

/-- DatabaseHandler.persist_exchange_currency_pairs: run the try-block, commit
once at the end on success; on any exception roll the whole batch back
(committed state unchanged) and swallow the exception. -/
def persist_exchange_currency_pairs (fault : Option Nat) (db : DB) (l : List CPTuple) : DB :=
  match persistPairsTry fault db l with
  | .ok db1 => db1
  | .error _ => db

/-- DatabaseHandler.persist_exchange_currency_pair: singleton wrapper. -/
def persist_exchange_currency_pair (db : DB) (en fn sn : String) : DB :=
  persist_exchange_currency_pairs none db [⟨some en, some fn, some sn⟩]

/-- DatabaseHandler.get_exchange_currency_pair: first persist the triple in a
session of its own (committing it), then look the three objects up and query
the pair keyed on them. -/
def get_exchange_currency_pair (db : DB) (en fn sn : String) : DB × Option PairRow :=
  (persist_exchange_currency_pair db en fn sn,
   tripleResolved (persist_exchange_currency_pair db en fn sn) en fn sn)

/-- Ticker input tuple
(exchange-name, start_time, response_time, first, second,
 last_price, last_trade, best_ask, best_bid, daily_volume). -/
structure TickerTuple where
  exchange_name : String
  start_time : Int
  response_time : Int
  first_currency : String
  second_currency : String
  last_price : Rat
  last_trade : Rat
  best_ask : Rat
  best_bid : Rat
  daily_volume : Rat
deriving DecidableEq

/-- The Ticker row persist_tickers builds from a tuple and its resolved pair. -/
def mkTickerRow (pid : Nat) (t : TickerTuple) : TickerRow :=
  { exchange_pair_id := pid, start_time := t.start_time, response_time := t.response_time,
    last_price := t.last_price, last_trade := t.last_trade, best_ask := t.best_ask,
    best_bid := t.best_bid, daily_volume := t.daily_volume }

/-- Loop of persist_tickers: resolve each tuple through
get_exchange_currency_pair (whose pair creation commits in a session of its
own) and collect a pending Ticker row when the resolved pair id is among the
queried pairs.  Returns the committed state after the pair resolutions and the
pending rows of the outer session. -/
def tickersLoop (db : DB) (queried : List Nat) : List TickerTuple → DB × List TickerRow
  | [] => (db, [])
  | t :: rest =>
    match get_exchange_currency_pair db t.exchange_name t.first_currency t.second_currency with
    | (db1, ecp) =>
      match tickersLoop db1 queried rest with
      | (db2, rows) =>
        (db2,
         (match ecp with
          | some cp =>
            if queried.any (fun q1 => cp.id == q1) then [mkTickerRow cp.id t] else []
          | none => []) ++ rows)

/-- DatabaseHandler.persist_tickers inside its session_scope.  After the loop
the progress print reads the loop variable; when the tickers sequence was
empty that variable was never bound, the print raises NameError, session_scope
rolls the pending Ticker rows back and re-raises (error carries the committed
state: the pair creations of the loop were committed separately).  Otherwise
the pending rows are committed once. -/
def persist_tickers (db : DB) (queried : List Nat) (tickers : List TickerTuple) :
    Except DB DB :=
  match tickersLoop db queried tickers with
  | (db1, rows) =>
    match tickers with
    | [] => .error db1
    | _ :: _ => .ok { db1 with tickers := db1.tickers ++ rows }

/-- Historic-rate input tuple
(exchange_pair_id, timestamp, open, high, low, close, volume). -/
structure HistoricRateTuple where
  exchange_pair_id : Nat
  timestamp : Int
  open_ : Rat
  high : Rat
  low : Rat
  close : Rat
  volume : Rat
deriving DecidableEq

/-- One iteration of persist_historic_rates: inside its own session_scope,
point query for an existing row with the same (exchange_pair_id, timestamp)
and insert only when none exists; commit when the scope closes. -/
def persist_historic_rate_step (db : DB) (r : HistoricRateTuple) : DB :=
  match db.historic_rates.find?
      (fun h => h.exchange_pair_id == r.exchange_pair_id && h.timestamp == r.timestamp) with
  | some _ => db
  | none =>
      { db with historic_rates := db.historic_rates ++
          [⟨r.exchange_pair_id, r.timestamp, r.open_, r.high, r.low, r.close, r.volume⟩] }

/-- DatabaseHandler.persist_historic_rates: one transaction per tuple, each
committed before the next tuple is processed. -/
def persist_historic_rates (db : DB) (l : List HistoricRateTuple) : DB :=
  l.foldl persist_historic_rate_step db

/-- DatabaseHandler.get_exchange_id: id of the exchange with the upper-cased
name, or None. -/
def get_exchange_id (db : DB) (exchange_name : String) : Option Nat :=
  (queryExchange db exchange_name).map (fun e => e.id)

/-- DatabaseHandler.get_currency_id: id of the currency with the upper-cased
name, or None. -/
def get_currency_id (db : DB) (currency_name : String) : Option Nat :=
  (queryCurrency db currency_name).map (fun c => c.id)

/-- DatabaseHandler.get_all_currency_pairs_from_exchange: all pair rows of the
exchange with the given name, empty when the exchange is unknown. -/
def get_all_currency_pairs_from_exchange (db : DB) (exchange_name : String) : List PairRow :=
  match db.exchanges.find? (fun e => e.name == pyUpper exchange_name) with
  | some e => db.pairs.filter (fun p => p.exchange_id == e.id)
  | none => []

/-- One entry of the currency_pairs selector: a dict with keys first and
second. -/
structure PairQueryDict where
  first : String
  second : String
deriving DecidableEq

/-- DatabaseHandler.get_currency_pairs: for each requested (first, second)
dict with truthy names, query the single pair row of the exchange with those
currency ids; missing exchange or currency ids make the query compare a
column against NULL and find nothing. -/
def get_currency_pairs (db : DB) (exchange_name : String)
    (currency_pairs : Option (List PairQueryDict)) : List PairRow :=
  if exchange_name ≠ "" then
    let exchange_id := get_exchange_id db exchange_name
    match currency_pairs with
    | none => []
    | some l =>
      l.foldl (fun acc cpd =>
        if cpd.first ≠ "" ∧ cpd.second ≠ "" then
          match exchange_id, get_currency_id db cpd.first, get_currency_id db cpd.second with
          | some eid, some fid, some sid =>
            match queryPair db eid fid sid with
            | some p => acc ++ [p]
            | none => acc
          | _, _, _ => acc
        else acc) []
  else []

/-- DatabaseHandler.get_currency_pairs_with_first_currency: all pair rows of
the exchange whose first currency is one of the truthy names. -/
def get_currency_pairs_with_first_currency (db : DB) (exchange_name : String)
    (currency_names : Option (List String)) : List PairRow :=
  if exchange_name ≠ "" then
    let exchange_id := get_exchange_id db exchange_name
    match currency_names with
    | none => []
    | some l =>
      l.foldl (fun acc n =>
        if n ≠ "" then
          match exchange_id, get_currency_id db n with
          | some eid, some fid =>
            acc ++ db.pairs.filter (fun p => p.exchange_id == eid && p.first_id == fid)
          | _, _ => acc
        else acc) []
  else []

/-- DatabaseHandler.get_currency_pairs_with_second_currency: all pair rows of
the exchange whose second currency is one of the truthy names. -/
def get_currency_pairs_with_second_currency (db : DB) (exchange_name : String)
    (currency_names : Option (List String)) : List PairRow :=
  if exchange_name ≠ "" then
    let exchange_id := get_exchange_id db exchange_name
    match currency_names with
    | none => []
    | some l =>
      l.foldl (fun acc n =>
        if n ≠ "" then
          match exchange_id, get_currency_id db n with
          | some eid, some sid =>
            acc ++ db.pairs.filter (fun p => p.exchange_id == eid && p.second_id == sid)
          | _, _ => acc
        else acc) []
  else []

/-- DatabaseHandler.get_exchanges_currency_pairs: union of the three selector
queries, deduplicated by pair id preserving order. -/
def get_exchanges_currency_pairs (db : DB) (exchange_name : String)
    (currency_pairs : Option (List PairQueryDict)) (first_currencies : Option (List String))
    (second_currencies : Option (List String)) : List PairRow :=
  let found :=
    get_currency_pairs db exchange_name currency_pairs ++
    get_currency_pairs_with_first_currency db exchange_name first_currencies ++
    get_currency_pairs_with_second_currency db exchange_name second_currencies
  found.foldl (fun res p =>
    if res.any (fun r => p.id == r.id) then res else res ++ [p]) []

end DbHandler

namespace Scheduler

open DbHandler

instance exceptDecidableEq {ε α : Type} [DecidableEq ε] [DecidableEq α] :
    DecidableEq (Except ε α) := fun a b =>
  match a, b with
  | .ok x, .ok y =>
    if h : x = y then .isTrue (congrArg Except.ok h)
    else .isFalse (fun hc => h (Except.ok.inj hc))
  | .error x, .error y =>
    if h : x = y then .isTrue (congrArg Except.error h)
    else .isFalse (fun hc => h (Except.error.inj hc))
  | .ok _, .error _ => .isFalse (fun hc => Except.noConfusion hc)
  | .error _, .ok _ => .isFalse (fun hc => Except.noConfusion hc)

/-- The fact tables reachable from the dispatch table of determine_task. -/
inductive ReqTable
  | exchangeCurrencyPairTable
  | tickerTable
  | historicRateTable
  | orderBookTable
  | tradeTable
  | ohlcvmTable
deriving DecidableEq

/-- The two handler methods referenced by the dispatch table. -/
inductive TaskFun
  | getCurrencyPairsTask
  | getJobDoneTask
deriving DecidableEq

/-- Value returned by Scheduler.determine_task: either a dispatch-table entry
(handler plus target table) or the default the dict lookup falls back to, a
lambda returning the string Invalid request name. -/
inductive DispatchResult
  | task (fn : TaskFun) (table : ReqTable)
  | invalidNameFallback
deriving DecidableEq

/-- Scheduler.determine_task: dictionary lookup of the request name with the
invalid-name lambda as default. -/
def determine_task (request_name : String) : DispatchResult :=
  if request_name = "currency_pairs" then .task .getCurrencyPairsTask .exchangeCurrencyPairTable
  else if request_name = "ticker" then .task .getJobDoneTask .tickerTable
  else if request_name = "historic_rates" then .task .getJobDoneTask .historicRateTable
  else if request_name = "order_books" then .task .getJobDoneTask .orderBookTable
  else if request_name = "trades" then .task .getJobDoneTask .tradeTable
  else if request_name = "ohlcvm" then .task .getJobDoneTask .ohlcvmTable
  else .invalidNameFallback

/-- What Scheduler.run does with the value of determine_task: it calls .get on
it as if it were the dispatch dict.  On a table entry this yields the handler
and table; on the fallback lambda the attribute access raises AttributeError
at dispatch time. -/
inductive RunStep
  | dispatch (fn : TaskFun) (table : ReqTable)
  | attributeError
deriving DecidableEq

/-- The dispatch part of Scheduler.run for a job with the given request name. -/
def run_dispatch (request_name : String) : RunStep :=
  match determine_task request_name with
  | .task fn tbl => .dispatch fn tbl
  | .invalidNameFallback => .attributeError

/-- The Scheduler attributes set by the initializer. -/
structure SchedulerState where
  job_list : List String
  frequency : Nat
  validated : Bool
deriving DecidableEq

/-- Scheduler initializer: stores the job list unchanged (job_list is carried
here by the request names, the only part dispatch looks at), multiplies the
frequency by 60 and clears the validated flag.  No request name is checked. -/
def scheduler_init (job_request_names : List String) (frequency : Nat) : SchedulerState :=
  { job_list := job_request_names, frequency := frequency * 60, validated := false }

/-- The (response_time, exchange-name) head of a truthy exchange response in
get_job_done; the payload behind it is only passed on to format_data. -/
structure RespData where
  response_time : Int
  exchange_name : String
deriving DecidableEq

/-- An exchange object as get_job_done consumes it: its name, the outcome of
its request coroutine (raise, falsy None, or a truthy response), and the fact
tuples its format_data step yields for this round (abstracted as Nat). -/
structure SchedExchange where
  name : String
  request : Except Unit (Option RespData)
  formatted : List Nat
deriving DecidableEq

/-- asyncio.gather over the request coroutines: results in input order, but an
exception raised by any single request propagates out of the gather. -/
def gatherRequests : List SchedExchange → Except Unit (List (Option RespData))
  | [] => .ok []
  | ex :: rest =>
    match ex.request, gatherRequests rest with
    | .ok r, .ok rs => .ok (r :: rs)
    | _, _ => .error ()

/-- The exchange-matching loop of get_job_done: first exchange whose name
matches the name carried in the response, case-insensitively. -/
def findExchange (exs : List SchedExchange) (n : String) : Option SchedExchange :=
  exs.find? (fun e => pyUpper e.name == pyUpper n)

/-- One call the round makes into DatabaseHandler.persist_response: the
matched exchange and the formatted fact tuples handed over. -/
structure PersistCallRec where
  exchange : String
  tuples : List Nat
deriving DecidableEq

/-- Response loop of get_job_done: falsy responses are skipped, responses
whose exchange name matches no exchange are dropped, and a persist call is
recorded when the matched exchange formats a non-empty tuple list. -/
def processResponses (exs : List SchedExchange) : List (Option RespData) → List PersistCallRec
  | [] => []
  | none :: rest => processResponses exs rest
  | some r :: rest =>
    match findExchange exs r.exchange_name with
    | none => processResponses exs rest
    | some found =>
      if found.formatted ≠ [] then
        ⟨found.name, found.formatted⟩ :: processResponses exs rest
      else processResponses exs rest

/-- Scheduler.get_job_done for one round over the exchanges of a job: gather
all requests (an exception from any one of them propagates), then process the
responses and hand the formatted tuples to the store. -/
def get_job_done (exs : List SchedExchange) : Except Unit (List PersistCallRec) :=
  match gatherRequests exs with
  | .error _ => .error ()
  | .ok rs => .ok (processResponses exs rs)

/-- Modelled from the spec: the Scheduler calls a DatabaseHandler variant of
persist_exchange_currency_pairs that also takes an is_exchange flag; that
variant is not under src.  Per spec section 3 the flag only marks the data
source as exchange or platform and does not change how pairs are resolved and
persisted, so the call persists the tuples and ignores the flag. -/
def persist_exchange_currency_pairs_flagged (db : DB) (l : List CPTuple)
    (_is_exchange : Bool) : DB :=
  DbHandler.persist_exchange_currency_pairs none db l

/-- An exchange object as the job validator consumes it: name, the
exchange-or-platform flag, and the already formatted currency-pair tuples a
request_currency_pairs call would yield (empty when response[1] is falsy). -/
structure ExchObj where
  name : String
  is_exchange : Bool
  livePairs : List CPTuple
deriving DecidableEq

/-- The job parameters the validator reads from job.job_params. -/
structure JobParams where
  update_cp : Bool
  currency_pairs : Option (List PairQueryDict)
  first_currencies : Option (List String)
  second_currencies : Option (List String)
deriving DecidableEq

/-- A Job as the Scheduler holds it; jobId stands for the object identity that
list.remove compares by, and exchanges_with_pairs is the insertion-ordered
dict from exchange objects to resolved pair ids. -/
structure SJob where
  jobId : Nat
  request_name : String
  job_params : JobParams
  exchanges_with_pairs : List (ExchObj × List Nat)
deriving DecidableEq

/-- Inner helper update_currency_pairs of Scheduler.get_currency_pairs:
request the live pair list and persist it when response[1] is truthy. -/
def update_currency_pairs (db : DB) (ex : ExchObj) : DB :=
  if ex.livePairs ≠ [] then
    persist_exchange_currency_pairs_flagged db ex.livePairs ex.is_exchange
  else db

/-- Exchange loop of Scheduler.get_currency_pairs for one job: refresh the
pair list when the update flag is set or the store has no pairs for the
exchange, then resolve the selectors into pair ids for the dict entry. -/
def gcpExchangeLoop (db : DB) (p : JobParams) :
    List (ExchObj × List Nat) → DB × List (ExchObj × List Nat)
  | [] => (db, [])
  | (ex, _) :: rest =>
    let db1 :=
      if p.update_cp then update_currency_pairs db ex
      else if DbHandler.get_all_currency_pairs_from_exchange db ex.name = [] then
        update_currency_pairs db ex
      else db
    let resolved := (DbHandler.get_exchanges_currency_pairs db1 ex.name p.currency_pairs
        p.first_currencies p.second_currencies).map (fun r => r.id)
    match gcpExchangeLoop db1 p rest with
    | (db2, rest1) => (db2, (ex, resolved) :: rest1)

/-- Scheduler.get_currency_pairs over the job list. -/
def get_currency_pairs_sched (db : DB) : List SJob → DB × List SJob
  | [] => (db, [])
  | j :: rest =>
    match gcpExchangeLoop db j.job_params j.exchanges_with_pairs with
    | (db1, ewp1) =>
      match get_currency_pairs_sched db1 rest with
      | (db2, rest1) => (db2, { j with exchanges_with_pairs := ewp1 } :: rest1)

/-- Outcome of remove_jobs: a normal return of the (mutated) job list, the
sys.exit(0) of the empty-list branch, or the RuntimeError CPython raises when
the next step of a dict iteration finds the dict changed size. -/
inductive RJResult
  | ret (l : List SJob)
  | exit
  | rte
deriving DecidableEq

/-- Intermediate outcome of the for-loop of remove_jobs: an early exit
propagated from the body, or normal loop completion with the final state. -/
inductive LoopRes
  | out (r : RJResult)
  | done (s : List SJob)
deriving DecidableEq

/-- Python list.remove: drop the first element with the given identity. -/
def pyRemove (jid : Nat) : List SJob → List SJob
  | [] => []
  | j :: rest => if j.jobId = jid then rest else j :: pyRemove jid rest

/-- First key of the dict whose value is falsy, in insertion order: the key
the dict loop of remove_jobs deletes (iteration stops there, because deleting
during iteration makes the following next() raise). -/
def firstEmptyKey : List (ExchObj × List Nat) → Option ExchObj
  | [] => none
  | (k, v) :: rest => if v = [] then some k else firstEmptyKey rest

/-- Python del d[k] on the insertion-ordered dict. -/
def delKey (k : ExchObj) : List (ExchObj × List Nat) → List (ExchObj × List Nat)
  | [] => []
  | (k1, v) :: rest => if k1 = k then rest else (k1, v) :: delKey k rest

/-- In-place mutation of the job object with the given identity, visible
through every alias in the list. -/
def mapJob (jid : Nat) (f : SJob → SJob) : List SJob → List SJob
  | [] => []
  | j :: rest => (if j.jobId = jid then f j else j) :: mapJob jid f rest

mutual

/-- The for-loop of remove_jobs over the shared job list, index-based as
CPython iterates a list being mutated: the element past a removed one is
skipped.  A job with a falsy dict is removed from the list; then the dict loop
runs: at the first falsy value the key is deleted and remove_jobs recurses on
the shared list; if that recursion returns normally, the next step of the dict
iteration raises RuntimeError. -/
def removeJobsLoop (fuel : Nat) (i : Nat) (state : List SJob) : Option LoopRes :=
  match fuel with
  | 0 => none
  | fuel1 + 1 =>
    if h : i < state.length then
      let job := state.get ⟨i, h⟩
      let state1 := if job.exchanges_with_pairs = [] then pyRemove job.jobId state else state
      match firstEmptyKey job.exchanges_with_pairs with
      | none => removeJobsLoop fuel1 (i + 1) state1
      | some k =>
        let state2 := mapJob job.jobId
          (fun j => { j with exchanges_with_pairs := delKey k j.exchanges_with_pairs }) state1
        match removeJobs fuel1 state2 with
        | none => none
        | some .exit => some (.out .exit)
        | some .rte => some (.out .rte)
        | some (.ret _) => some (.out .rte)
    else some (.done state)

/-- remove_jobs of Scheduler.validate_job, fuel-indexed (none = fuel ran out):
empty list reports the configuration error and exits the process; otherwise
run the loop, return the list when it is still truthy, else recurse on the
now-empty list (which exits). -/
def removeJobs (fuel : Nat) (state : List SJob) : Option RJResult :=
  match fuel with
  | 0 => none
  | fuel1 + 1 =>
    if state = [] then some .exit
    else
      match removeJobsLoop fuel1 0 state with
      | none => none
      | some (.out r) => some r
      | some (.done s) =>
        if s = [] then removeJobs fuel1 []
        else some (.ret s)

end

/-- The response asyncio.gather returns for one exchange when no request in
the round raises. -/
def responseOf (ex : SchedExchange) : Option RespData :=
  match ex.request with
  | .ok r => r
  | .error _ => none

/-- Scheduler.validate_job: resolve the selectors of every job via
get_currency_pairs, then prune with remove_jobs. -/
def validate_job (fuel : Nat) (db : DB) (job_list : List SJob) : Option (DB × RJResult) :=
  match get_currency_pairs_sched db job_list with
  | (db1, jobs1) => (removeJobs fuel jobs1).map (fun r => (db1, r))

end Scheduler

/-- The existence check of persist_historic_rates as a predicate on the
store: is there a row with the given (exchange_pair_id, timestamp). -/
def historic_rate_exists (db : DB) (pid : Nat) (ts : Int) : Bool :=
  db.historic_rates.any (fun h => h.exchange_pair_id == pid && h.timestamp == ts)

/-- The HistoricRate row built from an input tuple. -/
def mkHistoricRateRow (r : DbHandler.HistoricRateTuple) : HistoricRateRow :=
  ⟨r.exchange_pair_id, r.timestamp, r.open_, r.high, r.low, r.close, r.volume⟩

/-- db2 extends db1 when each identity table of db2 is the corresponding
table of db1 with rows appended at the end (how every mutation of the embedded
store grows them). -/
def DB.Extends (db2 db1 : DB) : Prop :=
  (∃ xs, db2.exchanges = db1.exchanges ++ xs) ∧
  (∃ ys, db2.currencies = db1.currencies ++ ys) ∧
  (∃ zs, db2.pairs = db1.pairs ++ zs) ∧
  db2.tickers = db1.tickers ∧ db2.historic_rates = db1.historic_rates

/-- Well-formed surrogate ids: every id stored in the identity tables was
allocated below the corresponding auto-increment counter. -/
def DB.WFIds (db : DB) : Prop :=
  (∀ e ∈ db.exchanges, e.id < db.nextExchangeId) ∧
  (∀ c ∈ db.currencies, c.id < db.nextCurrencyId) ∧
  (∀ p ∈ db.pairs,
    p.exchange_id < db.nextExchangeId ∧ p.first_id < db.nextCurrencyId ∧
    p.second_id < db.nextCurrencyId)

instance (db : DB) : Decidable (DB.WFIds db) := by
  unfold DB.WFIds
  infer_instance

/-- No two pair rows share the (exchange_id, first_id, second_id) triple. -/
def pairsUnique (db : DB) : Prop :=
  db.pairs.Pairwise (fun p q =>
    ¬(p.exchange_id = q.exchange_id ∧ p.first_id = q.first_id ∧ p.second_id = q.second_id))

instance (db : DB) : Decidable (pairsUnique db) := by
  unfold pairsUnique
  infer_instance

/-- Number of pair rows the store holds for the triple of names, resolved
through the upper-cased lookups; zero when a name does not resolve. -/
def tripleRowCount (db : DB) (en fn sn : String) : Nat :=
  match queryExchange db en, queryCurrency db fn, queryCurrency db sn with
  | some e, some f, some s =>
    (db.pairs.filter (fun p =>
      p.exchange_id == e.id && p.first_id == f.id && p.second_id == s.id)).length
  | _, _, _ => 0

/-- Case-insensitive equality of optional names: both absent, or both present
with the same upper-casing. -/
def optCaseEqB : Option String → Option String → Bool
  | none, none => true
  | some a, some b => pyUpper a == pyUpper b
  | _, _ => false

/-- Case-insensitive equality of two pair tuples, component-wise. -/
def cpCaseEquivB (x y : DbHandler.CPTuple) : Bool :=
  optCaseEqB x.exchange_name y.exchange_name &&
  optCaseEqB x.first_currency_name y.first_currency_name &&
  optCaseEqB x.second_currency_name y.second_currency_name

/-- Case-insensitive equality of two tuple lists, position-wise. -/
def listCaseEquivB : List DbHandler.CPTuple → List DbHandler.CPTuple → Bool
  | [], [] => true
  | x :: xs, y :: ys => cpCaseEquivB x y && listCaseEquivB xs ys
  | _, _ => false

/-! Concrete fixtures used by witnesses and counterexamples. -/

/-- A store holding BINANCE with the BTC-USDT pair stored under id 7. -/
def dbBinance : DB :=
  { exchanges := [⟨1, "BINANCE"⟩],
    currencies := [⟨1, "BTC"⟩, ⟨2, "USDT"⟩],
    pairs := [⟨7, 1, 1, 2⟩],
    tickers := [], historic_rates := [],
    nextExchangeId := 2, nextCurrencyId := 3, nextPairId := 8 }

/-- An empty store. -/
def dbEmpty : DB :=
  { exchanges := [], currencies := [], pairs := [], tickers := [], historic_rates := [],
    nextExchangeId := 1, nextCurrencyId := 1, nextPairId := 1 }

/-- The ticker tuple of the persistence scenario in the spec. -/
def tickB : DbHandler.TickerTuple :=
  { exchange_name := "BINANCE", start_time := 0, response_time := 1,
    first_currency := "BTC", second_currency := "USDT",
    last_price := 100.0, last_trade := 100.1, best_ask := 99.9, best_bid := 100.2,
    daily_volume := 5000.0 }

/-- A tuple list containing the same (E, A, B) triple twice. -/
def pairListEAB : List DbHandler.CPTuple :=
  [⟨some "E", some "A", some "B"⟩, ⟨some "E", some "A", some "B"⟩]

/-- A tuple list in lower case. -/
def pairListLower : List DbHandler.CPTuple :=
  [⟨some "coinbase", some "btc", some "usd"⟩]

/-- The same tuple list with every name in a different letter case. -/
def pairListUpper : List DbHandler.CPTuple :=
  [⟨some "Coinbase", some "BTC", some "USD"⟩]

/-- Historic-rate tuple with key (7, 100). -/
def hr1 : DbHandler.HistoricRateTuple :=
  { exchange_pair_id := 7, timestamp := 100, open_ := 10, high := 12, low := 9,
    close := 11, volume := 1000 }

/-- Historic-rate tuple with the same pair id as hr1 but timestamp 200. -/
def hr2 : DbHandler.HistoricRateTuple :=
  { exchange_pair_id := 7, timestamp := 200, open_ := 11, high := 13, low := 10,
    close := 12, volume := 900 }

/-- Store already holding a historic-rate row with key (7, 100). -/
def dbHRFull : DB :=
  { dbBinance with historic_rates := [⟨7, 100, 10, 12, 9, 11, 1000⟩] }

/-- A job holding no exchanges at all (empty exchanges_with_pairs dict). -/
def emptyJob1 : Scheduler.SJob :=
  { jobId := 1, request_name := "ticker",
    job_params :=
      { update_cp := false, currency_pairs := some [],
        first_currencies := some [], second_currencies := some [] },
    exchanges_with_pairs := [] }

/-- A second job holding no exchanges, distinct object identity. -/
def emptyJob2 : Scheduler.SJob :=
  { emptyJob1 with jobId := 2 }

/-- Round exchange whose request succeeds with a truthy response. -/
def exAlpha : Scheduler.SchedExchange :=
  { name := "ALPHA", request := .ok (some ⟨5, "ALPHA"⟩), formatted := [1] }

/-- Round exchange whose request raises. -/
def exBeta : Scheduler.SchedExchange :=
  { name := "BETA", request := .error (), formatted := [2] }

/-- Round exchange whose request succeeds with a truthy response. -/
def exGamma : Scheduler.SchedExchange :=
  { name := "GAMMA", request := .ok (some ⟨6, "GAMMA"⟩), formatted := [3] }

/-! Helper lemmas. -/

namespace Scheduler

theorem gatherRequests_ok (exs : List SchedExchange)
    (h : ∀ ex ∈ exs, ex.request ≠ .error ()) :
    gatherRequests exs = .ok (exs.map responseOf) := by
  induction exs with
  | nil => rfl
  | cons ex rest ih =>
    have hex : ex.request ≠ .error () := h ex (List.mem_cons_self ex rest)
    have hrest := ih (fun e he => h e (List.mem_cons_of_mem ex he))
    match hr : ex.request with
    | .ok r => simp [gatherRequests, hr, hrest, List.map, responseOf]
    | .error u => exact absurd hr hex

theorem gatherRequests_error (exs : List SchedExchange)
    (h : ∃ ex ∈ exs, ex.request = .error ()) :
    gatherRequests exs = .error () := by
  induction exs with
  | nil => obtain ⟨ex, hmem, _⟩ := h; exact absurd hmem (List.not_mem_nil ex)
  | cons ex rest ih =>
    obtain ⟨e, hmem, herr⟩ := h
    rcases List.mem_cons.mp hmem with he | he
    · subst he
      simp [gatherRequests, herr]
    · have hrest := ih ⟨e, he, herr⟩
      match hr : ex.request with
      | .ok r => simp [gatherRequests, hr, hrest]
      | .error u => simp [gatherRequests, hr]

end Scheduler

namespace DbHandler

theorem find?_append_of_some {α : Type} {p : α → Bool} {l1 l2 : List α} {a : α}
    (h : l1.find? p = some a) : (l1 ++ l2).find? p = some a := by
  rw [List.find?_append, h]; rfl

theorem find?_append_of_none {α : Type} {p : α → Bool} {l1 l2 : List α}
    (h : l1.find? p = none) : (l1 ++ l2).find? p = l2.find? p := by
  rw [List.find?_append, h]; rfl

theorem extends_refl (db : DB) : DB.Extends db db :=
  ⟨⟨[], (List.append_nil _).symm⟩, ⟨[], (List.append_nil _).symm⟩,
   ⟨[], (List.append_nil _).symm⟩, rfl, rfl⟩

theorem extends_trans {a b c : DB} (h1 : DB.Extends b a) (h2 : DB.Extends c b) :
    DB.Extends c a := by
  obtain ⟨⟨xs1, e1⟩, ⟨ys1, c1⟩, ⟨zs1, p1⟩, t1, r1⟩ := h1
  obtain ⟨⟨xs2, e2⟩, ⟨ys2, c2⟩, ⟨zs2, p2⟩, t2, r2⟩ := h2
  exact ⟨⟨xs1 ++ xs2, by rw [e2, e1, List.append_assoc]⟩,
         ⟨ys1 ++ ys2, by rw [c2, c1, List.append_assoc]⟩,
         ⟨zs1 ++ zs2, by rw [p2, p1, List.append_assoc]⟩,
         t2.trans t1, r2.trans r1⟩

theorem queryExchange_mono {db1 db2 : DB} {n : String} {e : ExchangeRow}
    (hx : DB.Extends db2 db1) (h : queryExchange db1 n = some e) :
    queryExchange db2 n = some e := by
  obtain ⟨⟨xs, hxs⟩, _, _, _, _⟩ := hx
  unfold queryExchange at h ⊢
  rw [hxs]
  exact find?_append_of_some h

theorem queryCurrency_mono {db1 db2 : DB} {n : String} {c : CurrencyRow}
    (hx : DB.Extends db2 db1) (h : queryCurrency db1 n = some c) :
    queryCurrency db2 n = some c := by
  obtain ⟨_, ⟨ys, hys⟩, _, _, _⟩ := hx
  unfold queryCurrency at h ⊢
  rw [hys]
  exact find?_append_of_some h

theorem queryPair_mono {db1 db2 : DB} {eid fid sid : Nat} {p : PairRow}
    (hx : DB.Extends db2 db1) (h : queryPair db1 eid fid sid = some p) :
    queryPair db2 eid fid sid = some p := by
  obtain ⟨_, _, ⟨zs, hzs⟩, _, _⟩ := hx
  unfold queryPair at h ⊢
  rw [hzs]
  exact find?_append_of_some h

theorem tripleResolved_mono {db1 db2 : DB} {en fn sn : String} {p : PairRow}
    (hx : DB.Extends db2 db1) (h : tripleResolved db1 en fn sn = some p) :
    tripleResolved db2 en fn sn = some p := by
  unfold tripleResolved at h ⊢
  match he : queryExchange db1 en, hf : queryCurrency db1 fn, hs : queryCurrency db1 sn with
  | some e, some f, some s =>
    rw [he, hf, hs] at h
    rw [queryExchange_mono hx he, queryCurrency_mono hx hf, queryCurrency_mono hx hs]
    exact queryPair_mono hx h
  | none, _, _ => rw [he] at h; exact absurd h (by simp)
  | some e, none, _ => rw [he, hf] at h; exact absurd h (by simp)
  | some e, some f, none => rw [he, hf, hs] at h; exact absurd h (by simp)

theorem persist_pair_step_insert_extends {db : DB} {en fn sn : String}
    {exFound : Option ExchangeRow} {fFound sFound : Option CurrencyRow} {db2 : DB}
    (h : persist_pair_step_insert db en fn sn exFound fFound sFound = .ok db2) :
    DB.Extends db2 db := by
  unfold persist_pair_step_insert at h
  split at h
  · exact absurd h (by simp)
  · have hdb := Except.ok.inj h
    subst hdb
    exact ⟨⟨_, rfl⟩, ⟨_, by rw [List.append_assoc]⟩, ⟨_, rfl⟩, rfl, rfl⟩

theorem findExchangeRow_append (l1 l2 : List ExchangeRow) (n : String) :
    findExchangeRow (l1 ++ l2) n = (findExchangeRow l1 n).or (findExchangeRow l2 n) := by
  unfold findExchangeRow
  rw [List.find?_append]

theorem findCurrencyRow_append (l1 l2 : List CurrencyRow) (n : String) :
    findCurrencyRow (l1 ++ l2) n = (findCurrencyRow l1 n).or (findCurrencyRow l2 n) := by
  unfold findCurrencyRow
  rw [List.find?_append]

theorem findPairRow_append (l1 l2 : List PairRow) (a b c : Nat) :
    findPairRow (l1 ++ l2) a b c = (findPairRow l1 a b c).or (findPairRow l2 a b c) := by
  unfold findPairRow
  rw [List.find?_append]

theorem findExchangeRow_new_self (i : Nat) (n : String) :
    findExchangeRow [ExchangeRow.new i n] n = some (ExchangeRow.new i n) := by
  unfold findExchangeRow ExchangeRow.new
  simp

theorem findCurrencyRow_new_self (i : Nat) (n : String) :
    findCurrencyRow [CurrencyRow.new i n] n = some (CurrencyRow.new i n) := by
  unfold findCurrencyRow CurrencyRow.new
  simp

theorem findCurrencyRow_new_skip (i : Nat) (fn sn : String)
    (h : (pyUpper fn == pyUpper sn) = false) :
    findCurrencyRow [CurrencyRow.new i fn] sn = none := by
  unfold findCurrencyRow CurrencyRow.new
  simp [h]

theorem findPairRow_append_self (l : List PairRow) (i a b c : Nat) :
    ∃ p, findPairRow (l ++ [⟨i, a, b, c⟩]) a b c = some p := by
  rw [findPairRow_append]
  cases hp : findPairRow l a b c with
  | some q => exact ⟨q, by simp⟩
  | none =>
    refine ⟨⟨i, a, b, c⟩, ?_⟩
    simp only [Option.none_or]
    unfold findPairRow
    simp

theorem findExchangeRow_resolve (l : List ExchangeRow) (n : String) (i : Nat)
    (exFound : Option ExchangeRow) (hx : findExchangeRow l n = exFound) :
    ∃ er, findExchangeRow (l ++ (if exFound.isNone then [ExchangeRow.new i n] else [])) n
        = some er ∧
      er.id = (match exFound with | some e => e.id | none => i) := by
  cases exFound with
  | some e =>
    refine ⟨e, ?_, rfl⟩
    simpa using hx
  | none =>
    refine ⟨ExchangeRow.new i n, ?_, rfl⟩
    simp only [Option.isNone_none, if_true]
    rw [findExchangeRow_append, hx, Option.none_or]
    exact findExchangeRow_new_self i n

theorem findCurrencyRow_resolve_first (l : List CurrencyRow) (fn : String) (fid : Nat)
    (fFound : Option CurrencyRow) (B : List CurrencyRow)
    (hf : findCurrencyRow l fn = fFound) :
    ∃ fr, findCurrencyRow
        ((l ++ (if fFound.isNone then [CurrencyRow.new fid fn] else [])) ++ B) fn = some fr ∧
      fr.id = (match fFound with | some c => c.id | none => fid) := by
  cases fFound with
  | some f =>
    refine ⟨f, ?_, rfl⟩
    rw [findCurrencyRow_append]
    simp only [Option.isNone_some, Bool.false_eq_true, if_false, List.append_nil]
    rw [hf]
    rfl
  | none =>
    refine ⟨CurrencyRow.new fid fn, ?_, rfl⟩
    rw [findCurrencyRow_append]
    have hA : findCurrencyRow (l ++ [CurrencyRow.new fid fn]) fn
        = some (CurrencyRow.new fid fn) := by
      rw [findCurrencyRow_append, hf, Option.none_or]
      exact findCurrencyRow_new_self fid fn
    simp only [Option.isNone_none, if_true]
    rw [hA]
    rfl

theorem findCurrencyRow_resolve_second (l : List CurrencyRow) (fn sn : String) (fid sid : Nat)
    (fFound sFound : Option CurrencyRow)
    (hf : findCurrencyRow l fn = fFound) (hs : findCurrencyRow l sn = sFound)
    (hguard : fFound.isNone = false ∨ sFound.isNone = false ∨
      (pyUpper fn == pyUpper sn) = false) :
    ∃ sr, findCurrencyRow
        ((l ++ (if fFound.isNone then [CurrencyRow.new fid fn] else [])) ++
          (if sFound.isNone then [CurrencyRow.new sid sn] else [])) sn = some sr ∧
      sr.id = (match sFound with | some c => c.id | none => sid) := by
  cases sFound with
  | some s =>
    refine ⟨s, ?_, rfl⟩
    rw [findCurrencyRow_append]
    simp only [Option.isNone_some, Bool.false_eq_true, if_false, List.append_nil]
    rw [findCurrencyRow_append, hs]
    rfl
  | none =>
    refine ⟨CurrencyRow.new sid sn, ?_, rfl⟩
    simp only [Option.isNone_none, if_true]
    rw [findCurrencyRow_append]
    have hA : findCurrencyRow
        (l ++ (if fFound.isNone then [CurrencyRow.new fid fn] else [])) sn = none := by
      rw [findCurrencyRow_append, hs, Option.none_or]
      cases fFound with
      | some f => simp [findCurrencyRow]
      | none =>
        simp only [Option.isNone_none, if_true]
        rcases hguard with hg | hg | hg
        · exact absurd hg (by simp)
        · exact absurd hg (by simp)
        · exact findCurrencyRow_new_skip fid fn sn hg
    rw [hA, Option.none_or]
    exact findCurrencyRow_new_self sid sn

theorem persist_pair_step_insert_resolves {db : DB} {en fn sn : String}
    {exFound : Option ExchangeRow} {fFound sFound : Option CurrencyRow} {db2 : DB}
    (hx : queryExchange db en = exFound) (hf : queryCurrency db fn = fFound)
    (hs : queryCurrency db sn = sFound)
    (h : persist_pair_step_insert db en fn sn exFound fFound sFound = .ok db2) :
    ∃ p, tripleResolved db2 en fn sn = some p := by
  unfold persist_pair_step_insert at h
  split at h
  · exact absurd h (by simp)
  · next hguard =>
    have hdb2 := (Except.ok.inj h).symm
    subst hdb2
    have hg : fFound.isNone = false ∨ sFound.isNone = false ∨
        (pyUpper fn == pyUpper sn) = false := by
      cases hfb : fFound.isNone <;> cases hsb : sFound.isNone <;>
        cases hpq : (pyUpper fn == pyUpper sn) <;> simp_all
    obtain ⟨er, her, herid⟩ :=
      findExchangeRow_resolve db.exchanges en db.nextExchangeId exFound hx
    obtain ⟨fr, hfr, hfrid⟩ :=
      findCurrencyRow_resolve_first db.currencies fn (newFirstId db fFound) fFound
        (if sFound.isNone then [CurrencyRow.new (newSecondId db fFound sFound) sn] else []) hf
    obtain ⟨sr, hsr, hsrid⟩ :=
      findCurrencyRow_resolve_second db.currencies fn sn (newFirstId db fFound)
        (newSecondId db fFound sFound) fFound sFound hf hs hg
    have herid2 : er.id = newExchangeId db exFound := by
      cases exFound <;> simpa [newExchangeId] using herid
    have hfrid2 : fr.id = newFirstId db fFound := by
      cases fFound <;> simpa [newFirstId] using hfrid
    have hsrid2 : sr.id = newSecondId db fFound sFound := by
      cases sFound <;> simpa [newSecondId] using hsrid
    unfold tripleResolved queryExchange queryCurrency queryPair
    dsimp only
    rw [her, hfr, hsr]
    dsimp only
    rw [herid2, hfrid2, hsrid2]
    exact findPairRow_append_self db.pairs db.nextPairId (newExchangeId db exFound)
      (newFirstId db fFound) (newSecondId db fFound sFound)

theorem persist_pair_step_extends {db : DB} {cp : CPTuple} {db2 : DB}
    (h : persist_pair_step db cp = .ok db2) : DB.Extends db2 db := by
  unfold persist_pair_step at h
  split at h
  · split at h
    · split at h
      · have hdb := Except.ok.inj h
        subst hdb
        exact extends_refl db
      · have hdb := Except.ok.inj h
        subst hdb
        exact ⟨⟨[], (List.append_nil _).symm⟩, ⟨[], (List.append_nil _).symm⟩, ⟨_, rfl⟩,
          rfl, rfl⟩
    · exact persist_pair_step_insert_extends h
  · have hdb := Except.ok.inj h
    subst hdb
    exact extends_refl db

theorem persist_pair_step_names_eq (db : DB) (en fn sn : String) :
    persist_pair_step db ⟨some en, some fn, some sn⟩ =
      match queryExchange db en, queryCurrency db fn, queryCurrency db sn with
      | some e, some f, some s =>
          (match queryPair db e.id f.id s.id with
           | some _ => .ok db
           | none =>
               .ok { db with
                     pairs := db.pairs ++ [⟨db.nextPairId, e.id, f.id, s.id⟩],
                     nextPairId := db.nextPairId + 1 })
      | exFound, fFound, sFound => persist_pair_step_insert db en fn sn exFound fFound sFound
    := rfl

theorem tripleResolved_of_lookups {db : DB} {en fn sn : String} {e : ExchangeRow}
    {f s : CurrencyRow} (he : queryExchange db en = some e)
    (hf : queryCurrency db fn = some f) (hs : queryCurrency db sn = some s) :
    tripleResolved db en fn sn = queryPair db e.id f.id s.id := by
  unfold tripleResolved
  rw [he, hf, hs]

theorem persist_pair_step_resolves {db db2 : DB} {en fn sn : String}
    (h : persist_pair_step db ⟨some en, some fn, some sn⟩ = .ok db2) :
    ∃ p, tripleResolved db2 en fn sn = some p := by
  rw [persist_pair_step_names_eq] at h
  match he : queryExchange db en, hf : queryCurrency db fn, hs : queryCurrency db sn with
  | some e, some f, some s =>
    rw [he, hf, hs] at h
    simp only [] at h
    match hq : queryPair db e.id f.id s.id with
    | some p =>
      rw [hq] at h
      simp only [] at h
      have hdb := Except.ok.inj h
      subst hdb
      exact ⟨p, (tripleResolved_of_lookups he hf hs).trans hq⟩
    | none =>
      rw [hq] at h
      simp only [] at h
      have hdb := (Except.ok.inj h).symm
      subst hdb
      obtain ⟨p, hp⟩ := findPairRow_append_self db.pairs db.nextPairId e.id f.id s.id
      refine ⟨p, ?_⟩
      have he2 : queryExchange (DB.mk db.exchanges db.currencies
          (db.pairs ++ [⟨db.nextPairId, e.id, f.id, s.id⟩]) db.tickers db.historic_rates
          db.nextExchangeId db.nextCurrencyId (db.nextPairId + 1)) en = some e := he
      have hf2 : queryCurrency (DB.mk db.exchanges db.currencies
          (db.pairs ++ [⟨db.nextPairId, e.id, f.id, s.id⟩]) db.tickers db.historic_rates
          db.nextExchangeId db.nextCurrencyId (db.nextPairId + 1)) fn = some f := hf
      have hs2 : queryCurrency (DB.mk db.exchanges db.currencies
          (db.pairs ++ [⟨db.nextPairId, e.id, f.id, s.id⟩]) db.tickers db.historic_rates
          db.nextExchangeId db.nextCurrencyId (db.nextPairId + 1)) sn = some s := hs
      rw [tripleResolved_of_lookups he2 hf2 hs2]
      exact hp
  | none, _, _ =>
    rw [he] at h
    exact persist_pair_step_insert_resolves he rfl rfl h
  | some e, none, _ =>
    rw [he, hf] at h
    exact persist_pair_step_insert_resolves he hf rfl h
  | some e, some f, none =>
    rw [he, hf, hs] at h
    exact persist_pair_step_insert_resolves he hf hs h

theorem persist_pair_step_of_resolved {db : DB} {en fn sn : String} {p : PairRow}
    (h : tripleResolved db en fn sn = some p) :
    persist_pair_step db ⟨some en, some fn, some sn⟩ = .ok db := by
  unfold tripleResolved at h
  match he : queryExchange db en, hf : queryCurrency db fn, hs : queryCurrency db sn with
  | some e, some f, some s =>
    rw [he, hf, hs] at h
    simp only [] at h
    rw [persist_pair_step_names_eq, he, hf, hs]
    simp only []
    rw [h]
  | none, _, _ => rw [he] at h; simp at h
  | some e, none, _ => rw [he, hf] at h; simp at h
  | some e, some f, none => rw [he, hf, hs] at h; simp at h

theorem persist_pair_step_skip (db : DB) (cp : CPTuple)
    (h : cp.exchange_name = none ∨ cp.first_currency_name = none ∨
      cp.second_currency_name = none) :
    persist_pair_step db cp = .ok db := by
  rcases cp with ⟨a, b, c⟩
  cases a <;> cases b <;> cases c <;> simp_all [persist_pair_step]

theorem persistPairsTry_nil (fault : Option Nat) (db : DB) :
    persistPairsTry fault db [] = .ok db := rfl

theorem persistPairsTry_cons_none (db : DB) (cp : CPTuple) (rest : List CPTuple) :
    persistPairsTry none db (cp :: rest) =
      match persist_pair_step db cp with
      | .error _ => .error ()
      | .ok db1 => persistPairsTry none db1 rest := by
  conv_lhs => unfold persistPairsTry
  rw [if_neg (by simp)]
  rfl

theorem persistPairsTry_ok_extends {fault : Option Nat} {db D : DB} {l : List CPTuple}
    (h : persistPairsTry fault db l = .ok D) : DB.Extends D db := by
  induction l generalizing fault db with
  | nil =>
    rw [persistPairsTry_nil] at h
    exact (Except.ok.inj h) ▸ extends_refl db
  | cons cp rest ih =>
    unfold persistPairsTry at h
    split at h
    · exact absurd h (by simp)
    · match hstep : persist_pair_step db cp with
      | .error _ => rw [hstep] at h; exact absurd h (by simp)
      | .ok db1 =>
        rw [hstep] at h
        exact extends_trans (persist_pair_step_extends hstep) (ih h)

theorem persist_exchange_currency_pairs_extends (fault : Option Nat) (db : DB)
    (l : List CPTuple) :
    DB.Extends (persist_exchange_currency_pairs fault db l) db := by
  unfold persist_exchange_currency_pairs
  match htry : persistPairsTry fault db l with
  | .ok d => exact persistPairsTry_ok_extends htry
  | .error _ => exact extends_refl db

theorem persistPairsTry_ok_resolves {db D : DB} {l : List CPTuple}
    (h : persistPairsTry none db l = .ok D) :
    ∀ en fn sn, (⟨some en, some fn, some sn⟩ : CPTuple) ∈ l →
      ∃ p, tripleResolved D en fn sn = some p := by
  induction l generalizing db with
  | nil => intro en fn sn hmem; exact absurd hmem (List.not_mem_nil _)
  | cons cp rest ih =>
    rw [persistPairsTry_cons_none] at h
    match hstep : persist_pair_step db cp with
    | .error _ => rw [hstep] at h; exact absurd h (by simp)
    | .ok db1 =>
      rw [hstep] at h
      intro en fn sn hmem
      rcases List.mem_cons.mp hmem with hcp | hcp
      · obtain ⟨p, hp⟩ := persist_pair_step_resolves (hcp ▸ hstep)
        exact ⟨p, tripleResolved_mono (persistPairsTry_ok_extends h) hp⟩
      · exact ih h en fn sn hcp

theorem persistPairsTry_ok_idem {db D : DB} {l : List CPTuple}
    (h : persistPairsTry none db l = .ok D) :
    persistPairsTry none D l = .ok D := by
  induction l generalizing db with
  | nil => rfl
  | cons cp rest ih =>
    rw [persistPairsTry_cons_none] at h
    match hstep : persist_pair_step db cp with
    | .error _ => rw [hstep] at h; exact absurd h (by simp)
    | .ok db1 =>
      rw [hstep] at h
      have hstepD : persist_pair_step D cp = .ok D := by
        rcases cp with ⟨a, b, c⟩
        match a, b, c with
        | some en, some fn, some sn =>
          obtain ⟨p, hp⟩ := persist_pair_step_resolves hstep
          have hpD := tripleResolved_mono (persistPairsTry_ok_extends h) hp
          exact persist_pair_step_of_resolved hpD
        | none, _, _ => exact persist_pair_step_skip D _ (Or.inl rfl)
        | some _, none, _ => exact persist_pair_step_skip D _ (Or.inr (Or.inl rfl))
        | some _, some _, none => exact persist_pair_step_skip D _ (Or.inr (Or.inr rfl))
      rw [persistPairsTry_cons_none, hstepD]
      exact ih h

theorem queryExchange_congr (db : DB) {n1 n2 : String} (h : pyUpper n1 = pyUpper n2) :
    queryExchange db n1 = queryExchange db n2 := by
  unfold queryExchange findExchangeRow
  simp only [h]

theorem queryCurrency_congr (db : DB) {n1 n2 : String} (h : pyUpper n1 = pyUpper n2) :
    queryCurrency db n1 = queryCurrency db n2 := by
  unfold queryCurrency findCurrencyRow
  simp only [h]

theorem persist_pair_step_insert_case_eq {db : DB} {u1 v1 w1 u2 v2 w2 : String}
    (hu : pyUpper u1 = pyUpper u2) (hv : pyUpper v1 = pyUpper v2)
    (hw : pyUpper w1 = pyUpper w2) (exFound : Option ExchangeRow)
    (fFound sFound : Option CurrencyRow) :
    persist_pair_step_insert db u1 v1 w1 exFound fFound sFound =
      persist_pair_step_insert db u2 v2 w2 exFound fFound sFound := by
  unfold persist_pair_step_insert
  simp only [ExchangeRow.new, CurrencyRow.new, hu, hv, hw]

theorem persist_pair_step_case_eq {db : DB} {x y : CPTuple}
    (h : cpCaseEquivB x y = true) :
    persist_pair_step db x = persist_pair_step db y := by
  rcases x with ⟨a1, b1, c1⟩
  rcases y with ⟨a2, b2, c2⟩
  unfold cpCaseEquivB at h
  simp only [Bool.and_eq_true] at h
  obtain ⟨⟨hA, hB⟩, hC⟩ := h
  cases a1 <;> cases a2 <;> cases b1 <;> cases b2 <;> cases c1 <;> cases c2 <;>
    simp_all only [optCaseEqB, Bool.false_eq_true]
  case some.some.some.some.some.some u1 u2 v1 v2 w1 w2 =>
    have hu : pyUpper u1 = pyUpper u2 := by simpa using hA
    have hv : pyUpper v1 = pyUpper v2 := by simpa using hB
    have hw : pyUpper w1 = pyUpper w2 := by simpa using hC
    rw [persist_pair_step_names_eq, persist_pair_step_names_eq,
      ← queryExchange_congr db hu, ← queryCurrency_congr db hv,
      ← queryCurrency_congr db hw]
    match queryExchange db u1, queryCurrency db v1, queryCurrency db w1 with
    | some e, some f, some s => rfl
    | none, fF, sF => exact persist_pair_step_insert_case_eq hu hv hw none fF sF
    | some e, none, sF => exact persist_pair_step_insert_case_eq hu hv hw (some e) none sF
    | some e, some f, none => exact persist_pair_step_insert_case_eq hu hv hw (some e) (some f) none
  all_goals rfl

theorem persistPairsTry_case_eq : ∀ (l l' : List CPTuple), listCaseEquivB l l' = true →
    ∀ (fault : Option Nat) (db : DB),
      persistPairsTry fault db l = persistPairsTry fault db l'
  | [], [], _, _, _ => rfl
  | [], _ :: _, h, _, _ => by simp [listCaseEquivB] at h
  | _ :: _, [], h, _, _ => by simp [listCaseEquivB] at h
  | x :: xs, y :: ys, h, fault, db => by
    unfold listCaseEquivB at h
    simp only [Bool.and_eq_true] at h
    obtain ⟨hxy, htail⟩ := h
    unfold persistPairsTry
    split
    · rfl
    · rw [persist_pair_step_case_eq hxy]
      match persist_pair_step db y with
      | .error _ => rfl
      | .ok db1 => exact persistPairsTry_case_eq xs ys htail _ db1

theorem cpCaseEquivB_refl (x : CPTuple) : cpCaseEquivB x x = true := by
  rcases x with ⟨a, b, c⟩
  unfold cpCaseEquivB
  cases a <;> cases b <;> cases c <;> simp [optCaseEqB]

theorem listCaseEquivB_refl (l : List CPTuple) : listCaseEquivB l l = true := by
  induction l with
  | nil => rfl
  | cons x xs ih => unfold listCaseEquivB; rw [cpCaseEquivB_refl, ih]; rfl

theorem persist_pair_step_insert_WF {db db2 : DB} {en fn sn : String}
    {exFound : Option ExchangeRow} {fFound sFound : Option CurrencyRow}
    (hWF : DB.WFIds db)
    (hx : queryExchange db en = exFound) (hf : queryCurrency db fn = fFound)
    (hs : queryCurrency db sn = sFound)
    (h : persist_pair_step_insert db en fn sn exFound fFound sFound = .ok db2) :
    DB.WFIds db2 := by
  obtain ⟨hWFe, hWFc, hWFp⟩ := hWF
  unfold persist_pair_step_insert at h
  split at h
  · exact absurd h (by simp)
  · have hdb2 := (Except.ok.inj h).symm
    subst hdb2
    refine ⟨?_, ?_, ?_⟩
    · intro e2 he2
      rcases List.mem_append.mp he2 with hm | hm
      · exact Nat.lt_of_lt_of_le (hWFe e2 hm) (Nat.le_add_right _ _)
      · cases exFound with
        | some e0 => simp at hm
        | none =>
          simp only [Option.isNone_none, if_true, List.mem_singleton] at hm
          subst hm
          simp [ExchangeRow.new]
    · intro c2 hc2
      rcases List.mem_append.mp hc2 with hm | hm
      · rcases List.mem_append.mp hm with hm2 | hm2
        · have := hWFc c2 hm2
          dsimp only
          omega
        · cases fFound with
          | some f0 => simp at hm2
          | none =>
            simp only [Option.isNone_none, if_true, List.mem_singleton] at hm2
            subst hm2
            simp only [CurrencyRow.new, newFirstId]
            cases sFound <;> simp <;> omega
      · cases sFound with
        | some s0 => simp at hm
        | none =>
          simp only [Option.isNone_none, if_true, List.mem_singleton] at hm
          subst hm
          simp only [CurrencyRow.new, newSecondId]
          cases fFound <;> simp
    · intro p2 hp2
      rcases List.mem_append.mp hp2 with hm | hm
      · obtain ⟨h1, h2, h3⟩ := hWFp p2 hm
        refine ⟨by dsimp only; omega, by dsimp only; omega, by dsimp only; omega⟩
      · simp only [List.mem_singleton] at hm
        subst hm
        refine ⟨?_, ?_, ?_⟩
        · simp only [newExchangeId]
          cases exFound with
          | some e0 =>
            have := hWFe e0 (List.mem_of_find?_eq_some hx)
            simp
            omega
          | none => simp
        · simp only [newFirstId]
          cases fFound with
          | some f0 =>
            have := hWFc f0 (List.mem_of_find?_eq_some hf)
            simp
            cases sFound <;> simp <;> omega
          | none =>
            cases sFound <;> simp <;> omega
        · simp only [newSecondId]
          cases sFound with
          | some s0 =>
            have := hWFc s0 (List.mem_of_find?_eq_some hs)
            simp
            cases fFound <;> simp <;> omega
          | none =>
            cases fFound <;> simp

theorem persist_pair_step_WF {db db2 : DB} {cp : CPTuple} (hWF : DB.WFIds db)
    (h : persist_pair_step db cp = .ok db2) : DB.WFIds db2 := by
  rcases cp with ⟨a, b, c⟩
  match a, b, c with
  | some en, some fn, some sn =>
    rw [persist_pair_step_names_eq] at h
    match he : queryExchange db en, hf : queryCurrency db fn, hs : queryCurrency db sn with
    | some e, some f, some s =>
      rw [he, hf, hs] at h
      simp only [] at h
      match hq : queryPair db e.id f.id s.id with
      | some p =>
        rw [hq] at h
        simp only [] at h
        exact (Except.ok.inj h) ▸ hWF
      | none =>
        rw [hq] at h
        simp only [] at h
        have hdb2 := (Except.ok.inj h).symm
        subst hdb2
        obtain ⟨hWFe, hWFc, hWFp⟩ := hWF
        refine ⟨hWFe, hWFc, ?_⟩
        intro p2 hp2
        rcases List.mem_append.mp hp2 with hm | hm
        · exact hWFp p2 hm
        · simp only [List.mem_singleton] at hm
          subst hm
          exact ⟨hWFe e (List.mem_of_find?_eq_some he),
                 hWFc f (List.mem_of_find?_eq_some hf),
                 hWFc s (List.mem_of_find?_eq_some hs)⟩
    | none, _, _ =>
      rw [he] at h
      exact persist_pair_step_insert_WF hWF he rfl rfl h
    | some e, none, _ =>
      rw [he, hf] at h
      exact persist_pair_step_insert_WF hWF he hf rfl h
    | some e, some f, none =>
      rw [he, hf, hs] at h
      exact persist_pair_step_insert_WF hWF he hf hs h
  | none, _, _ =>
    rw [persist_pair_step_skip db _ (Or.inl rfl)] at h
    exact (Except.ok.inj h) ▸ hWF
  | some _, none, _ =>
    rw [persist_pair_step_skip db _ (Or.inr (Or.inl rfl))] at h
    exact (Except.ok.inj h) ▸ hWF
  | some _, some _, none =>
    rw [persist_pair_step_skip db _ (Or.inr (Or.inr rfl))] at h
    exact (Except.ok.inj h) ▸ hWF

theorem persist_pair_step_insert_unique {db db2 : DB} {en fn sn : String}
    {exFound : Option ExchangeRow} {fFound sFound : Option CurrencyRow}
    (hWF : DB.WFIds db) (hU : pairsUnique db)
    (hnone : exFound = none ∨ fFound = none ∨ sFound = none)
    (h : persist_pair_step_insert db en fn sn exFound fFound sFound = .ok db2) :
    pairsUnique db2 := by
  obtain ⟨hWFe, hWFc, hWFp⟩ := hWF
  unfold persist_pair_step_insert at h
  split at h
  · exact absurd h (by simp)
  · have hdb2 := (Except.ok.inj h).symm
    subst hdb2
    unfold pairsUnique
    rw [List.pairwise_append]
    refine ⟨hU, by simp, ?_⟩
    intro p1 hp1 p2 hp2
    simp only [List.mem_singleton] at hp2
    subst hp2
    obtain ⟨hb1, hb2, hb3⟩ := hWFp p1 hp1
    intro hcon
    obtain ⟨hc1, hc2, hc3⟩ := hcon
    rcases hnone with hn | hn | hn
    · subst hn
      simp only [newExchangeId] at hc1
      omega
    · subst hn
      simp only [newFirstId] at hc2
      omega
    · subst hn
      simp only [newSecondId] at hc3
      cases fFound <;> simp at hc3 <;> omega

theorem persist_pair_step_unique {db db2 : DB} {cp : CPTuple}
    (hWF : DB.WFIds db) (hU : pairsUnique db)
    (h : persist_pair_step db cp = .ok db2) : pairsUnique db2 := by
  rcases cp with ⟨a, b, c⟩
  match a, b, c with
  | some en, some fn, some sn =>
    rw [persist_pair_step_names_eq] at h
    match he : queryExchange db en, hf : queryCurrency db fn, hs : queryCurrency db sn with
    | some e, some f, some s =>
      rw [he, hf, hs] at h
      simp only [] at h
      match hq : queryPair db e.id f.id s.id with
      | some p =>
        rw [hq] at h
        simp only [] at h
        exact (Except.ok.inj h) ▸ hU
      | none =>
        rw [hq] at h
        simp only [] at h
        have hdb2 := (Except.ok.inj h).symm
        subst hdb2
        unfold pairsUnique
        rw [List.pairwise_append]
        refine ⟨hU, by simp, ?_⟩
        intro p1 hp1 p2 hp2
        simp only [List.mem_singleton] at hp2
        subst hp2
        unfold queryPair findPairRow at hq
        have hnp := List.find?_eq_none.mp hq p1 hp1
        intro hcon
        obtain ⟨hc1, hc2, hc3⟩ := hcon
        apply hnp
        simp [hc1, hc2, hc3]
    | none, _, _ =>
      rw [he] at h
      exact persist_pair_step_insert_unique hWF hU (Or.inl rfl) h
    | some e, none, _ =>
      rw [he, hf] at h
      exact persist_pair_step_insert_unique hWF hU (Or.inr (Or.inl rfl)) h
    | some e, some f, none =>
      rw [he, hf, hs] at h
      exact persist_pair_step_insert_unique hWF hU (Or.inr (Or.inr rfl)) h
  | none, _, _ =>
    rw [persist_pair_step_skip db _ (Or.inl rfl)] at h
    exact (Except.ok.inj h) ▸ hU
  | some _, none, _ =>
    rw [persist_pair_step_skip db _ (Or.inr (Or.inl rfl))] at h
    exact (Except.ok.inj h) ▸ hU
  | some _, some _, none =>
    rw [persist_pair_step_skip db _ (Or.inr (Or.inr rfl))] at h
    exact (Except.ok.inj h) ▸ hU

theorem persistPairsTry_WF_unique {fault : Option Nat} {db D : DB} {l : List CPTuple}
    (hWF : DB.WFIds db) (hU : pairsUnique db)
    (h : persistPairsTry fault db l = .ok D) : DB.WFIds D ∧ pairsUnique D := by
  induction l generalizing fault db with
  | nil =>
    rw [persistPairsTry_nil] at h
    exact (Except.ok.inj h) ▸ ⟨hWF, hU⟩
  | cons cp rest ih =>
    unfold persistPairsTry at h
    split at h
    · exact absurd h (by simp)
    · match hstep : persist_pair_step db cp with
      | .error _ => rw [hstep] at h; exact absurd h (by simp)
      | .ok db1 =>
        rw [hstep] at h
        exact ih (persist_pair_step_WF hWF hstep) (persist_pair_step_unique hWF hU hstep) h

theorem persist_exchange_currency_pairs_WF_unique (fault : Option Nat) (db : DB)
    (l : List CPTuple) (hWF : DB.WFIds db) (hU : pairsUnique db) :
    DB.WFIds (persist_exchange_currency_pairs fault db l) ∧
      pairsUnique (persist_exchange_currency_pairs fault db l) := by
  unfold persist_exchange_currency_pairs
  match htry : persistPairsTry fault db l with
  | .ok d => exact persistPairsTry_WF_unique hWF hU htry
  | .error _ => exact ⟨hWF, hU⟩

theorem persist_pairs_twice_general (db : DB) (l l' : List CPTuple)
    (h : listCaseEquivB l l' = true) :
    persist_exchange_currency_pairs none (persist_exchange_currency_pairs none db l) l' =
      persist_exchange_currency_pairs none db l := by
  unfold persist_exchange_currency_pairs
  match htry : persistPairsTry none db l with
  | .ok D =>
    have h2 : persistPairsTry none D l' = .ok D := by
      rw [← persistPairsTry_case_eq l l' h none D]
      exact persistPairsTry_ok_idem htry
    rw [h2]
  | .error u =>
    have h2 : persistPairsTry none db l' = .error u := by
      rw [← persistPairsTry_case_eq l l' h none db]
      exact htry
    rw [h2]

theorem persist_pair_step_ok_of_ne (db : DB) (en : String) {fn sn : String}
    (hne : (pyUpper fn == pyUpper sn) = false) :
    ∃ db1, persist_pair_step db ⟨some en, some fn, some sn⟩ = .ok db1 := by
  rw [persist_pair_step_names_eq]
  match he : queryExchange db en, hf : queryCurrency db fn, hs : queryCurrency db sn with
  | some e, some f, some s =>
    simp only []
    match hq : queryPair db e.id f.id s.id with
    | some p => exact ⟨db, rfl⟩
    | none => exact ⟨_, rfl⟩
  | none, _, _ =>
    simp only []
    unfold persist_pair_step_insert
    rw [if_neg (by simp [hne])]
    exact ⟨_, rfl⟩
  | some e, none, _ =>
    simp only []
    unfold persist_pair_step_insert
    rw [if_neg (by simp [hne])]
    exact ⟨_, rfl⟩
  | some e, some f, none =>
    simp only []
    unfold persist_pair_step_insert
    rw [if_neg (by simp [hne])]
    exact ⟨_, rfl⟩

theorem get_exchange_currency_pair_spec (db : DB) (en : String) {fn sn : String}
    (hne : pyUpper fn ≠ pyUpper sn) :
    ∃ db1 p, get_exchange_currency_pair db en fn sn = (db1, some p) ∧
      DB.Extends db1 db := by
  have hne2 : (pyUpper fn == pyUpper sn) = false := by simpa using hne
  obtain ⟨db1, hstep⟩ := persist_pair_step_ok_of_ne db en hne2
  have hpersist : persist_exchange_currency_pair db en fn sn = db1 := by
    unfold persist_exchange_currency_pair persist_exchange_currency_pairs
    rw [persistPairsTry_cons_none, hstep]
    rfl
  obtain ⟨p, hp⟩ := persist_pair_step_resolves hstep
  refine ⟨db1, p, ?_, persist_pair_step_extends hstep⟩
  unfold get_exchange_currency_pair
  rw [hpersist, hp]

theorem tickersLoop_spec {q : List Nat} {ts : List TickerTuple} {db db2 : DB}
    {rows : List TickerRow}
    (hne : ∀ t ∈ ts, pyUpper t.first_currency ≠ pyUpper t.second_currency)
    (hloop : tickersLoop db q ts = (db2, rows)) :
    DB.Extends db2 db ∧
    (∀ r ∈ rows, r.exchange_pair_id ∈ q) ∧
    (∀ t ∈ ts, ∃ p,
      tripleResolved db2 t.exchange_name t.first_currency t.second_currency = some p ∧
      (p.id ∈ q → mkTickerRow p.id t ∈ rows)) := by
  induction ts generalizing db db2 rows with
  | nil =>
    unfold tickersLoop at hloop
    injection hloop with h1 h2
    subst h1
    subst h2
    exact ⟨extends_refl db, by simp, by simp⟩
  | cons t rest ih =>
    unfold tickersLoop at hloop
    obtain ⟨dbA, p0, hget, hextA⟩ := get_exchange_currency_pair_spec
      db t.exchange_name (hne t (List.mem_cons_self t rest))
    rw [hget] at hloop
    simp only [] at hloop
    match hrest : tickersLoop dbA q rest with
    | (dbB, rowsB) =>
      rw [hrest] at hloop
      simp only [] at hloop
      injection hloop with h1 h2
      subst h1
      subst h2
      obtain ⟨hextB, hpidB, hperB⟩ :=
        ih (fun u hu => hne u (List.mem_cons_of_mem t hu)) hrest
      refine ⟨extends_trans hextA hextB, ?_, ?_⟩
      · intro r hr
        rcases List.mem_append.mp hr with hm | hm
        · by_cases hq0 : q.any (fun q1 => p0.id == q1) = true
          · rw [if_pos hq0] at hm
            simp only [List.mem_singleton] at hm
            subst hm
            obtain ⟨x, hx, hbeq⟩ := List.any_eq_true.mp hq0
            simp only [beq_iff_eq] at hbeq
            simpa [mkTickerRow, hbeq] using hx
          · rw [if_neg hq0] at hm
            simp at hm
        · exact hpidB r hm
      · intro u hu
        rcases List.mem_cons.mp hu with hh | hh
        · subst hh
          have hfst := congrArg Prod.fst hget
          have hsnd := congrArg Prod.snd hget
          simp only [get_exchange_currency_pair] at hfst hsnd
          rw [hfst] at hsnd
          refine ⟨p0, tripleResolved_mono hextB hsnd, ?_⟩
          intro hpq
          have hq0 : (q.any (fun q1 => p0.id == q1)) = true :=
            List.any_eq_true.mpr ⟨p0.id, hpq, by simp⟩
          apply List.mem_append.mpr
          left
          simp [hq0]
        · obtain ⟨p, hres, hmem⟩ := hperB u hh
          exact ⟨p, hres, fun hpq => List.mem_append.mpr (Or.inr (hmem hpq))⟩

end DbHandler

theorem find?_eq_none_of_any_false {α : Type} (p : α → Bool) (l : List α)
    (h : l.any p = false) : l.find? p = none := by
  rw [List.find?_eq_none]
  intro x hx hpx
  have : l.any p = true := List.any_eq_true.mpr ⟨x, hx, hpx⟩
  rw [h] at this
  exact Bool.noConfusion this

theorem find?_isSome_of_any_true {α : Type} (p : α → Bool) (l : List α)
    (h : l.any p = true) : (l.find? p).isSome := by
  obtain ⟨x, hx, hpx⟩ := List.any_eq_true.mp h
  exact List.find?_isSome.mpr ⟨x, hx, hpx⟩

theorem persist_historic_rate_step_of_exists (db : DB) (r : DbHandler.HistoricRateTuple)
    (h : historic_rate_exists db r.exchange_pair_id r.timestamp = true) :
    DbHandler.persist_historic_rate_step db r = db := by
  unfold DbHandler.persist_historic_rate_step
  split
  · rfl
  · next hf =>
      exfalso
      have hs := find?_isSome_of_any_true _ _ h
      rw [hf] at hs
      simp at hs

theorem persist_historic_rate_step_of_absent (db : DB) (r : DbHandler.HistoricRateTuple)
    (h : historic_rate_exists db r.exchange_pair_id r.timestamp = false) :
    DbHandler.persist_historic_rate_step db r =
      { db with historic_rates := db.historic_rates ++ [mkHistoricRateRow r] } := by
  unfold DbHandler.persist_historic_rate_step
  rw [find?_eq_none_of_any_false _ _ h]
  rfl

/-! Claim theorems. -/

/-- Claim C1, counterexample: in a round over three exchanges where one
request raises, get_job_done propagates the exception (asyncio.gather is used
without return_exceptions), so the round does not complete and the other two
truthy responses are not persisted; without the raising exchange the same
round persists both. -/
theorem get_job_done_raising_counterexample :
    Scheduler.get_job_done [exAlpha, exBeta, exGamma] = .error () ∧
    Scheduler.get_job_done [exAlpha, exGamma] =
      .ok [⟨"ALPHA", [1]⟩, ⟨"GAMMA", [3]⟩] := by decide

/-- Claim C1, amended: an exchange whose request returns a falsy response is
skipped while the others are still formatted and persisted and the round
completes; but an exchange whose request raises makes the exception propagate
out of the round through the gather, and nothing of the round is persisted. -/
theorem get_job_done_failure_isolation (exs : List Scheduler.SchedExchange) :
    ((∀ ex ∈ exs, ex.request ≠ .error ()) →
      Scheduler.get_job_done exs =
        .ok (Scheduler.processResponses exs (exs.map Scheduler.responseOf))) ∧
    ((∃ ex ∈ exs, ex.request = .error ()) →
      Scheduler.get_job_done exs = .error ()) := by
  constructor
  · intro h
    simp [Scheduler.get_job_done, Scheduler.gatherRequests_ok exs h]
  · intro h
    simp [Scheduler.get_job_done, Scheduler.gatherRequests_error exs h]

/-- Claim C1, witness: a round over the two non-raising exchanges completes
and records both persist calls. -/
theorem get_job_done_failure_isolation_witness :
    (∀ ex ∈ [exAlpha, exGamma], ex.request ≠ .error ()) ∧
    Scheduler.get_job_done [exAlpha, exGamma] =
      .ok (Scheduler.processResponses [exAlpha, exGamma]
        ([exAlpha, exGamma].map Scheduler.responseOf)) :=
  ⟨by decide, (get_job_done_failure_isolation [exAlpha, exGamma]).1 (by decide)⟩

/-- Claim C2: evaluation of the embedded validate_job at the failing input.
Two jobs both holding no exchanges: remove_jobs removes the first job while
iterating over the shared list, which shifts the second job onto the index
just visited, so the loop never visits it; validate_job then returns normally
with the second exchange-less job still in the list, and the process is not
terminated although the correctly pruned list would be empty. -/
theorem validate_job_keeps_emptied_job :
    Scheduler.validate_job 9 dbEmpty [emptyJob1, emptyJob2] =
      some (dbEmpty, .ret [emptyJob2]) ∧
    emptyJob2.exchanges_with_pairs = [] := by decide

/-- Claim C5, counterexample: with no criteria at all (empty exact-pair list,
empty first-currency allowlist, empty second-currency allowlist) the
pair-selection query returns the empty list, while the store holds one pair
for the exchange. -/
theorem get_exchanges_currency_pairs_no_criteria_counterexample :
    DbHandler.get_exchanges_currency_pairs dbBinance "BINANCE"
      (some []) (some []) (some []) = [] ∧
    DbHandler.get_all_currency_pairs_from_exchange dbBinance "BINANCE" =
      [⟨7, 1, 1, 2⟩] := by decide

/-- Claim C5, amended: for every store and every exchange name, calling the
pair-selection query with no criteria at all returns the empty list, not all
pairs of the exchange (retrieving all pairs is the separate method
get_all_currency_pairs_from_exchange). -/
theorem get_exchanges_currency_pairs_no_criteria_empty (db : DB) (name : String) :
    DbHandler.get_exchanges_currency_pairs db name (some []) (some []) (some []) = [] ∧
    DbHandler.get_exchanges_currency_pairs db name none none none = [] := by
  have h1 : DbHandler.get_currency_pairs db name (some []) = [] := by
    unfold DbHandler.get_currency_pairs; split <;> rfl
  have h2 : DbHandler.get_currency_pairs_with_first_currency db name (some []) = [] := by
    unfold DbHandler.get_currency_pairs_with_first_currency; split <;> rfl
  have h3 : DbHandler.get_currency_pairs_with_second_currency db name (some []) = [] := by
    unfold DbHandler.get_currency_pairs_with_second_currency; split <;> rfl
  have h4 : DbHandler.get_currency_pairs db name none = [] := by
    unfold DbHandler.get_currency_pairs; split <;> rfl
  have h5 : DbHandler.get_currency_pairs_with_first_currency db name none = [] := by
    unfold DbHandler.get_currency_pairs_with_first_currency; split <;> rfl
  have h6 : DbHandler.get_currency_pairs_with_second_currency db name none = [] := by
    unfold DbHandler.get_currency_pairs_with_second_currency; split <;> rfl
  constructor
  · unfold DbHandler.get_exchanges_currency_pairs
    rw [h1, h2, h3]; rfl
  · unfold DbHandler.get_exchanges_currency_pairs
    rw [h4, h5, h6]; rfl

/-- Claim C8, counterexample: the unknown request name tickerz passes the
Scheduler initializer unchecked, determine_task returns the invalid-name
fallback, and the failure surfaces only when run dispatches the job. -/
theorem unknown_request_counterexample :
    (Scheduler.scheduler_init ["tickerz"] 5).job_list = ["tickerz"] ∧
    Scheduler.determine_task "tickerz" = .invalidNameFallback ∧
    Scheduler.run_dispatch "tickerz" = .attributeError := by decide

/-- Claim C8, amended: a request name outside the dispatch table is not
surfaced at startup (the initializer stores any job list unchanged); instead
determine_task returns the invalid-name fallback and running the job fails at
dispatch time when the fallback is treated as a dispatch-table entry. -/
theorem unknown_request_surfaces_at_dispatch (name : String) (jobs : List String) (freq : Nat)
    (h : name ∉ ["currency_pairs", "ticker", "historic_rates", "order_books",
                 "trades", "ohlcvm"]) :
    Scheduler.determine_task name = .invalidNameFallback ∧
    Scheduler.run_dispatch name = .attributeError ∧
    (Scheduler.scheduler_init jobs freq).job_list = jobs ∧
    (Scheduler.scheduler_init jobs freq).validated = false := by
  simp only [List.mem_cons, List.not_mem_nil, or_false, not_or] at h
  obtain ⟨h1, h2, h3, h4, h5, h6⟩ := h
  have hd : Scheduler.determine_task name = .invalidNameFallback := by
    unfold Scheduler.determine_task
    simp [h1, h2, h3, h4, h5, h6]
  refine ⟨hd, ?_, rfl, rfl⟩
  unfold Scheduler.run_dispatch
  rw [hd]

/-- Claim C8, witness: the amended statement at the concrete unknown name
tickerz. -/
theorem unknown_request_surfaces_at_dispatch_witness :
    ("tickerz" ∉ ["currency_pairs", "ticker", "historic_rates", "order_books",
                  "trades", "ohlcvm"]) ∧
    (Scheduler.determine_task "tickerz" = .invalidNameFallback ∧
     Scheduler.run_dispatch "tickerz" = .attributeError ∧
     (Scheduler.scheduler_init ["tickerz"] 5).job_list = ["tickerz"] ∧
     (Scheduler.scheduler_init ["tickerz"] 5).validated = false) :=
  ⟨by decide, unknown_request_surfaces_at_dispatch "tickerz" ["tickerz"] 5 (by decide)⟩

/-- Claim C3: for every call of persist_tickers on a non-empty tickers
sequence of well-formed tuples (per spec section 3 a tuple pairing a currency
with itself is invalid input), each tuple's referenced exchange-currency pair
is resolved — created if unseen — and a Ticker row for the tuple is among the
rows the call commits if and only if the resolved pair id is a member of
queried_currency_pairs; the call returns normally with all added rows
committed once at the end. -/
theorem persist_tickers_membership (db : DB) (q : List Nat)
    (ts : List DbHandler.TickerTuple) (hts : ts ≠ [])
    (hne : ∀ t ∈ ts, pyUpper t.first_currency ≠ pyUpper t.second_currency) :
    ∃ db1 rows,
      DbHandler.persist_tickers db q ts = .ok db1 ∧
      db1.tickers = db.tickers ++ rows ∧
      (∀ t ∈ ts, ∃ p,
        DbHandler.tripleResolved db1 t.exchange_name t.first_currency t.second_currency
          = some p ∧
        (DbHandler.mkTickerRow p.id t ∈ rows ↔ p.id ∈ q)) := by
  match ts, hts, hne with
  | [], hts0, _ => exact absurd rfl hts0
  | t0 :: rest, _, hne =>
    match hloop : DbHandler.tickersLoop db q (t0 :: rest) with
    | (db2, rows) =>
      obtain ⟨hext, hpid, hper⟩ := DbHandler.tickersLoop_spec hne hloop
      obtain ⟨_, _, _, hticks, _⟩ := hext
      refine ⟨{ db2 with tickers := db2.tickers ++ rows }, rows, ?_, ?_, ?_⟩
      · unfold DbHandler.persist_tickers
        rw [hloop]
      · dsimp only
        rw [hticks]
      · intro t htm
        obtain ⟨p, hres, hmem⟩ := hper t htm
        refine ⟨p, hres, ⟨?_, hmem⟩⟩
        intro hrow
        have hp2 := hpid _ hrow
        simpa [DbHandler.mkTickerRow] using hp2

/-- Claim C3, witness: the ticker-persistence scenario of the spec — queried
pair id 7 for (BINANCE, BTC, USDT) and the single BINANCE ticker tuple —
returns normally and commits exactly one Ticker row, with exchange_pair_id 7,
last_price 100.0 and daily_volume 5000.0. -/
theorem persist_tickers_membership_witness :
    ([tickB] ≠ ([] : List DbHandler.TickerTuple)) ∧
    (∀ t ∈ [tickB], pyUpper t.first_currency ≠ pyUpper t.second_currency) ∧
    (∃ db1 rows,
      DbHandler.persist_tickers dbBinance [7] [tickB] = .ok db1 ∧
      db1.tickers = dbBinance.tickers ++ rows ∧
      (∀ t ∈ [tickB], ∃ p,
        DbHandler.tripleResolved db1 t.exchange_name t.first_currency t.second_currency
          = some p ∧
        (DbHandler.mkTickerRow p.id t ∈ rows ↔ p.id ∈ [7]))) ∧
    DbHandler.persist_tickers dbBinance [7] [tickB] =
      .ok { dbBinance with
            tickers := [⟨7, 0, 1, 100.0, 100.1, 99.9, 100.2, 5000.0⟩] } :=
  ⟨by decide, by decide,
   persist_tickers_membership dbBinance [7] [tickB] (by decide) (by decide),
   rfl⟩

/-- Claim C4: persist_historic_rates deduplicates on (exchange_pair_id,
timestamp): processing is one committed transaction per tuple (the batch over
a cons is the single-tuple transaction followed by the rest); a tuple whose
key already has a row changes nothing; a tuple with an absent key appends
exactly its row; re-presenting an inserted tuple adds no second row; and a
tuple with the same exchange_pair_id but a different, absent timestamp does
insert after the first one. -/
theorem persist_historic_rates_dedup (db : DB) (r r2 : DbHandler.HistoricRateTuple)
    (rest : List DbHandler.HistoricRateTuple) :
    DbHandler.persist_historic_rates db (r :: rest) =
      DbHandler.persist_historic_rates (DbHandler.persist_historic_rates db [r]) rest ∧
    (historic_rate_exists db r.exchange_pair_id r.timestamp = true →
      DbHandler.persist_historic_rates db [r] = db) ∧
    (historic_rate_exists db r.exchange_pair_id r.timestamp = false →
      (DbHandler.persist_historic_rates db [r]).historic_rates =
        db.historic_rates ++ [mkHistoricRateRow r]) ∧
    DbHandler.persist_historic_rates (DbHandler.persist_historic_rates db [r]) [r] =
      DbHandler.persist_historic_rates db [r] ∧
    (r2.exchange_pair_id = r.exchange_pair_id → r2.timestamp ≠ r.timestamp →
      historic_rate_exists db r2.exchange_pair_id r2.timestamp = false →
      (DbHandler.persist_historic_rates (DbHandler.persist_historic_rates db [r])
          [r2]).historic_rates =
        (DbHandler.persist_historic_rates db [r]).historic_rates ++ [mkHistoricRateRow r2]) := by
  have hsingle : ∀ d rr, DbHandler.persist_historic_rates d [rr] =
      DbHandler.persist_historic_rate_step d rr := fun _ _ => rfl
  refine ⟨rfl, ?_, ?_, ?_, ?_⟩
  · intro h
    rw [hsingle, persist_historic_rate_step_of_exists db r h]
  · intro h
    rw [hsingle, persist_historic_rate_step_of_absent db r h]
  · rw [hsingle, hsingle]
    cases hex : historic_rate_exists db r.exchange_pair_id r.timestamp with
    | true =>
      rw [persist_historic_rate_step_of_exists db r hex,
          persist_historic_rate_step_of_exists db r hex]
    | false =>
      rw [persist_historic_rate_step_of_absent db r hex]
      apply persist_historic_rate_step_of_exists
      unfold historic_rate_exists
      simp only [List.any_append, List.any_cons, List.any_nil, Bool.or_false, Bool.or_eq_true]
      right
      simp [mkHistoricRateRow]
  · intro hpid hts hex2
    rw [hsingle, hsingle]
    have hstill : historic_rate_exists (DbHandler.persist_historic_rate_step db r)
        r2.exchange_pair_id r2.timestamp = false := by
      cases hex : historic_rate_exists db r.exchange_pair_id r.timestamp with
      | true => rw [persist_historic_rate_step_of_exists db r hex]; exact hex2
      | false =>
        rw [persist_historic_rate_step_of_absent db r hex]
        unfold historic_rate_exists at hex2 ⊢
        simp only [List.any_append, Bool.or_eq_false_iff]
        refine ⟨hex2, ?_⟩
        simp only [List.any_cons, List.any_nil, Bool.or_false, mkHistoricRateRow,
          Bool.and_eq_false_iff]
        right
        simp only [beq_eq_false_iff_ne, ne_eq]
        intro hcontra
        exact hts hcontra.symm
    rw [persist_historic_rate_step_of_absent _ r2 hstill]

/-- Claim C4, witness: in a store with no historic rates, inserting the tuple
with key (7, 100), re-presenting it, and then presenting the key (7, 200)
behaves as the dedup theorem states; and in a store that already holds key
(7, 100) the same tuple changes nothing. -/
theorem persist_historic_rates_dedup_witness :
    (historic_rate_exists dbBinance 7 100 = false) ∧
    (historic_rate_exists dbHRFull 7 100 = true) ∧
    ((DbHandler.persist_historic_rates dbBinance [hr1]).historic_rates =
      dbBinance.historic_rates ++ [mkHistoricRateRow hr1]) ∧
    (DbHandler.persist_historic_rates (DbHandler.persist_historic_rates dbBinance [hr1]) [hr1] =
      DbHandler.persist_historic_rates dbBinance [hr1]) ∧
    ((DbHandler.persist_historic_rates (DbHandler.persist_historic_rates dbBinance [hr1])
        [hr2]).historic_rates =
      (DbHandler.persist_historic_rates dbBinance [hr1]).historic_rates ++
        [mkHistoricRateRow hr2]) ∧
    (DbHandler.persist_historic_rates dbHRFull [hr1] = dbHRFull) :=
  ⟨by decide, by decide,
   (persist_historic_rates_dedup dbBinance hr1 hr2 []).2.2.1 (by decide),
   (persist_historic_rates_dedup dbBinance hr1 hr2 []).2.2.2.1,
   (persist_historic_rates_dedup dbBinance hr1 hr2 []).2.2.2.2 (by decide) (by decide) (by decide),
   (persist_historic_rates_dedup dbHRFull hr1 hr2 []).2.1 (by decide)⟩

/-- Claim C6: if an exception occurs while any tuple of the batch is being
processed, persist_exchange_currency_pairs rolls the entire batch back: the
committed store is returned unchanged, and since the embedded handler yields a
plain store no exception reaches the caller; when nothing raises, the batch is
the state the try-block accumulated, committed once. -/
theorem persist_pairs_batch_rollback (db : DB) (l : List DbHandler.CPTuple) (k : Nat) :
    (k < l.length → DbHandler.persist_exchange_currency_pairs (some k) db l = db) ∧
    (DbHandler.persist_exchange_currency_pairs none db l = db ∨
      DbHandler.persistPairsTry none db l =
        .ok (DbHandler.persist_exchange_currency_pairs none db l)) := by
  constructor
  · intro hk
    have herr : ∀ (l1 : List DbHandler.CPTuple) (k1 : Nat) (d : DB), k1 < l1.length →
        DbHandler.persistPairsTry (some k1) d l1 = .error () := by
      intro l1
      induction l1 with
      | nil => intro k1 d hlt; exact absurd hlt (by simp)
      | cons cp rest ih =>
        intro k1 d hlt
        match k1 with
        | 0 => simp [DbHandler.persistPairsTry]
        | k2 + 1 =>
          have : (some (k2 + 1) = some 0) = False := by simp
          unfold DbHandler.persistPairsTry
          rw [if_neg (by simp)]
          match DbHandler.persist_pair_step d cp with
          | .error _ => rfl
          | .ok d1 =>
            simp only [Option.map_some]
            exact ih k2 d1 (by simpa using Nat.lt_of_succ_lt_succ hlt)
    unfold DbHandler.persist_exchange_currency_pairs
    rw [herr l k db hk]
  · unfold DbHandler.persist_exchange_currency_pairs
    match DbHandler.persistPairsTry none db l with
    | .ok d1 => right; rfl
    | .error _ => left; rfl

/-- Claim C6, witness: an exception injected at the first tuple of a
three-tuple batch rolls all of it back. -/
theorem persist_pairs_batch_rollback_witness :
    (1 < ([⟨some "E", some "A", some "B"⟩, ⟨some "E", some "C", some "D"⟩,
          ⟨some "E", some "A", some "D"⟩] : List DbHandler.CPTuple).length) ∧
    DbHandler.persist_exchange_currency_pairs (some 1) dbEmpty
      [⟨some "E", some "A", some "B"⟩, ⟨some "E", some "C", some "D"⟩,
       ⟨some "E", some "A", some "D"⟩] = dbEmpty :=
  ⟨by decide,
   (persist_pairs_batch_rollback dbEmpty
     [⟨some "E", some "A", some "B"⟩, ⟨some "E", some "C", some "D"⟩,
      ⟨some "E", some "A", some "D"⟩] 1).1 (by decide)⟩

/-- Claim C7: calling persist_exchange_currency_pairs twice with the same
tuple list leaves exactly one ExchangeCurrencyPair row per distinct triple:
the second call returns the committed store of the first call unchanged, so it
creates no additional rows; moreover, over a store with well-formed ids and
triple-unique pair rows both properties are preserved, and in the committed
store of a successful batch every named triple of the list resolves to a pair
row — together with triple uniqueness this is exactly one row per distinct
triple. -/
theorem persist_pairs_idempotent (db : DB) (l : List DbHandler.CPTuple) :
    DbHandler.persist_exchange_currency_pairs none
        (DbHandler.persist_exchange_currency_pairs none db l) l =
      DbHandler.persist_exchange_currency_pairs none db l ∧
    (DB.WFIds db → pairsUnique db →
      DB.WFIds (DbHandler.persist_exchange_currency_pairs none db l) ∧
      pairsUnique (DbHandler.persist_exchange_currency_pairs none db l)) ∧
    (∀ D, DbHandler.persistPairsTry none db l = .ok D →
      ∀ en fn sn, (⟨some en, some fn, some sn⟩ : DbHandler.CPTuple) ∈ l →
        ∃ p, DbHandler.tripleResolved D en fn sn = some p) := by
  refine ⟨DbHandler.persist_pairs_twice_general db l l (DbHandler.listCaseEquivB_refl l), ?_, ?_⟩
  · intro hWF hU
    exact DbHandler.persist_exchange_currency_pairs_WF_unique none db l hWF hU
  · intro D hD en fn sn hmem
    exact DbHandler.persistPairsTry_ok_resolves hD en fn sn hmem

/-- Claim C7, witness: persisting a list that even contains the same triple
twice into the empty store commits, is idempotent, keeps ids well-formed and
pair triples unique, and leaves a row resolving the triple. -/
theorem persist_pairs_idempotent_witness :
    DB.WFIds dbEmpty ∧ pairsUnique dbEmpty ∧
    DbHandler.persist_exchange_currency_pairs none
        (DbHandler.persist_exchange_currency_pairs none dbEmpty pairListEAB) pairListEAB =
      DbHandler.persist_exchange_currency_pairs none dbEmpty pairListEAB ∧
    (DB.WFIds (DbHandler.persist_exchange_currency_pairs none dbEmpty pairListEAB) ∧
      pairsUnique (DbHandler.persist_exchange_currency_pairs none dbEmpty pairListEAB)) ∧
    (∃ p, DbHandler.tripleResolved
        (DbHandler.persist_exchange_currency_pairs none dbEmpty pairListEAB) "E" "A" "B" =
      some p) :=
  ⟨by decide, by decide,
   (persist_pairs_idempotent dbEmpty pairListEAB).1,
   (persist_pairs_idempotent dbEmpty pairListEAB).2.1 (by decide) (by decide),
   (persist_pairs_idempotent dbEmpty pairListEAB).2.2 _ rfl "E" "A" "B" (by decide)⟩

/-- Claim C9: names are case-insensitively unique through the store
operations: persisting the same exchange name again in any other letter case
changes nothing (no second row is created), the lookups upper-case their
input (two spellings with the same upper-casing query identically), and
persisting a tuple list again with every name in any other letter case leaves
the store of the first call unchanged. -/
theorem names_case_insensitive (db : DB) (a b : String) (l l1 : List DbHandler.CPTuple)
    (hab : pyUpper a = pyUpper b) (hll : listCaseEquivB l l1 = true) :
    DbHandler.persist_exchange (DbHandler.persist_exchange db a) b =
      DbHandler.persist_exchange db a ∧
    queryExchange db a = queryExchange db b ∧
    queryCurrency db a = queryCurrency db b ∧
    DbHandler.persist_exchange_currency_pairs none
        (DbHandler.persist_exchange_currency_pairs none db l) l1 =
      DbHandler.persist_exchange_currency_pairs none db l := by
  refine ⟨?_, DbHandler.queryExchange_congr db hab, DbHandler.queryCurrency_congr db hab,
    DbHandler.persist_pairs_twice_general db l l1 hll⟩
  have hq : queryExchange db b = queryExchange db a :=
    (DbHandler.queryExchange_congr db hab).symm
  match he : queryExchange db a with
  | some e =>
    have h1 : DbHandler.persist_exchange db a = db := by
      unfold DbHandler.persist_exchange
      rw [he]
    rw [h1]
    unfold DbHandler.persist_exchange
    rw [hq, he]
  | none =>
    have h1 : DbHandler.persist_exchange db a =
        DB.mk (db.exchanges ++ [ExchangeRow.new db.nextExchangeId a]) db.currencies db.pairs
          db.tickers db.historic_rates (db.nextExchangeId + 1) db.nextCurrencyId
          db.nextPairId := by
      unfold DbHandler.persist_exchange
      rw [he]
    rw [h1]
    unfold DbHandler.persist_exchange
    have hbnone : findExchangeRow db.exchanges b = none := hq.trans he
    have h2 : queryExchange
        (DB.mk (db.exchanges ++ [ExchangeRow.new db.nextExchangeId a]) db.currencies db.pairs
          db.tickers db.historic_rates (db.nextExchangeId + 1) db.nextCurrencyId
          db.nextPairId) b = some (ExchangeRow.new db.nextExchangeId a) := by
      unfold queryExchange
      dsimp only
      rw [DbHandler.findExchangeRow_append, hbnone, Option.none_or]
      unfold findExchangeRow ExchangeRow.new
      simp [hab]
    rw [h2]

/-- Claim C9, witness: persisting Binance and then BINANCE creates one row,
lookups for binance and BINANCE agree, and re-persisting a tuple list in a
different letter case changes nothing. -/
theorem names_case_insensitive_witness :
    pyUpper "Binance" = pyUpper "BINANCE" ∧
    listCaseEquivB pairListLower pairListUpper = true ∧
    (DbHandler.persist_exchange (DbHandler.persist_exchange dbEmpty "Binance") "BINANCE" =
      DbHandler.persist_exchange dbEmpty "Binance" ∧
    queryExchange dbEmpty "Binance" = queryExchange dbEmpty "BINANCE" ∧
    queryCurrency dbEmpty "Binance" = queryCurrency dbEmpty "BINANCE" ∧
    DbHandler.persist_exchange_currency_pairs none
        (DbHandler.persist_exchange_currency_pairs none dbEmpty pairListLower) pairListUpper =
      DbHandler.persist_exchange_currency_pairs none dbEmpty pairListLower) :=
  ⟨by decide, by decide,
   names_case_insensitive dbEmpty "Binance" "BINANCE" pairListLower pairListUpper
     (by decide) (by decide)⟩

/-- Claim C10: calling persist_tickers with an empty tickers sequence raises
(the closing progress report reads the never-bound loop variable), the
transaction is rolled back and no row is committed: the committed state the
error carries is the store unchanged. -/
theorem persist_tickers_empty_raises (db : DB) (queried : List Nat) :
    DbHandler.persist_tickers db queried [] = .error db := rfl

end OpenCrypto
